import Mathlib

/-!
Stream adapter over a growable buffer (`boost/beast/core/detail/ostream.hpp`).

A shallow embedding of `ostream_buffer` (both specializations) and
`ostream_helper` (both specializations), together with a model of the
`DynamicBuffer` concept they are written against.

Conventions of the embedding:

* a byte is a `Fin 256`; a character is its object representation,
  `sizeof(CharT)` bytes (`CharT cs`);
* `int_type` is `Option (CharT cs)`; `none` is `Traits::eof()`, and
  `static_cast<CharT>(ch)` of a non-eof value is the value under `some`;
* the put area pointers `pbase`, `pptr`, `epptr` are character offsets
  (`Int`) from the start of the first segment of the output sequence of the
  referenced buffer;
* the reference `b_` is threaded through as a field of the writer state.
-/

namespace Beast

/-- One octet of memory. -/
abbrev Byte := Fin 256

/-- A character of type `CharT`: its object representation, `cs = sizeof(CharT)` bytes. -/
structure CharT (cs : Nat) where
  bytes : List Byte
  size_eq : bytes.length = cs
deriving DecidableEq

/-- Calls received by the growable buffer, in the order they were made. -/
inductive Call where
  | prepare (n : Nat)
  | commit (n : Nat)
deriving DecidableEq

/-- Modelled from the spec: the Growable Buffer (the `DynamicBuffer` template
argument; its classes are not in this file). `data` is the committed content
(`size()` is its length), `out` holds the writable segments returned by the most
recent `prepare`, `used` counts the bytes of `out` already committed, `cap` is
`capacity()`, `maxSize` is `max_size()`, and `calls` records every
`prepare`/`commit` call with its argument. -/
structure DynamicBuffer where
  data : List Byte
  out : List (List Byte)
  used : Nat
  cap : Nat
  maxSize : Nat
  calls : List Call
deriving DecidableEq

/-- Modelled from the spec: the allocation policy of the Growable Buffer, which
the spec leaves to the buffer: the segments (with their initial bytes) that
`prepare(n)` returns in a given buffer state, and the capacity afterwards. -/
structure Policy where
  segments : DynamicBuffer → Nat → List (List Byte)
  capacity : DynamicBuffer → Nat → Nat

namespace DynamicBuffer

/-- Modelled from the spec: `size()`, the number of committed bytes. -/
def size (b : DynamicBuffer) : Nat := b.data.length

/-- Modelled from the spec: `capacity()`. -/
def capacity (b : DynamicBuffer) : Nat := b.cap

/-- Modelled from the spec: `max_size()`. -/
def max_size (b : DynamicBuffer) : Nat := b.maxSize

/-- Bytes prepared by the most recent `prepare` and not yet committed. -/
def outstanding (b : DynamicBuffer) : List Byte := b.out.flatten.drop b.used

/-- Modelled from the spec: `prepare(n)` replaces the output sequence by the
segments the policy hands out (nothing is counted as content yet) and returns
that sequence. -/
def prepare (P : Policy) (b : DynamicBuffer) (n : Nat) : DynamicBuffer × List (List Byte) :=
  ({ b with
      out := P.segments b n
      used := 0
      cap := P.capacity b n
      calls := b.calls ++ [Call.prepare n] },
   P.segments b n)

/-- Modelled from the spec: `commit(k)` makes the first `k` outstanding bytes of
the most recent `prepare` permanent content (all of them when fewer than `k` are
outstanding). -/
def commit (b : DynamicBuffer) (k : Nat) : DynamicBuffer :=
  { b with
      data := b.data ++ b.outstanding.take k
      used := b.used + min k b.outstanding.length
      calls := b.calls ++ [Call.commit k] }

end DynamicBuffer

/-- Modelled from the spec: `buffers_front` (declared in `buffers_prefix.hpp`):
the first segment of a buffer sequence, the empty buffer when there is none. -/
def buffers_front (bs : List (List Byte)) : List Byte := bs.headD []

/-- Width of `std::size_t`. -/
def SIZE_BITS : Nat := 64

/-- Subtraction of two `std::size_t` values: the result wraps modulo `2 ^ 64`. -/
def size_t_sub (a b : Nat) : Nat :=
  (a % 2 ^ SIZE_BITS + (2 ^ SIZE_BITS - b % 2 ^ SIZE_BITS)) % 2 ^ SIZE_BITS

/-- The writer state: the put area of the `std::basic_streambuf` base and the
referenced buffer `b_`. -/
structure ostream_buffer where
  b_ : DynamicBuffer
  pbase : Int
  pptr : Int
  epptr : Int
deriving DecidableEq

/-- Member `setp(pbeg, pend)` of `std::basic_streambuf`: `pbase = pptr = pbeg`, `epptr = pend`. -/
def setp (o : ostream_buffer) (pbeg pend : Int) : ostream_buffer :=
  { o with pbase := pbeg, pptr := pbeg, epptr := pend }

/-- Replace the `cs` bytes of character slot `slot` of a segment by `c`. A slot
that does not lie inside the segment is left alone (the source's store there is
undefined behaviour). -/
def pokeSegment (cs : Nat) (seg : List Byte) (slot : Int) (c : CharT cs) : List Byte :=
  if 0 ≤ slot ∧ (slot.toNat + 1) * cs ≤ seg.length then
    seg.take (slot.toNat * cs) ++ c.bytes ++ seg.drop ((slot.toNat + 1) * cs)
  else seg

/-- The store `Traits::assign(*pptr(), c)`: character slot `pptr` of the first
segment of the output sequence receives `c`. -/
def assign (cs : Nat) (o : ostream_buffer) (c : CharT cs) : ostream_buffer :=
  match o.b_.out with
  | [] => o
  | seg :: rest => { o with b_ := { o.b_ with out := pokeSegment cs seg o.pptr c :: rest } }

/-- The local `max_prepare` of `ostream_buffer::prepare` (the same expression in
both specializations), from `size()`, `capacity()` and `max_size()` of the
buffer; the constant `65536` is the local `max_size` of the source. -/
def max_prepare (size capacity max_size : Nat) : Nat :=
  min (max 512 (size_t_sub capacity size)) (min 65536 (size_t_sub max_size size))

/-! ## `ostream_buffer<DynamicBuffer, CharT, Traits, true>` -/

namespace ostream_buffer_true

/-- Member `prepare()`, the grow procedure. -/
def prepare (P : Policy) (cs : Nat) (o : ostream_buffer) : ostream_buffer :=
  let r := o.b_.prepare P (max_prepare o.b_.size o.b_.capacity o.b_.max_size)
  let b := buffers_front r.2
  let p : Int := 0
  setp { o with b_ := r.1 } p (p + ((b.length / cs : Nat) : Int) - 1)

/-- Member `flush(extra)`. The product is a byte count inside the first segment,
so the conversion to `std::size_t` does not wrap. -/
def flush (cs : Nat) (o : ostream_buffer) (extra : Int) : ostream_buffer :=
  { o with b_ := o.b_.commit ((o.pptr - o.pbase + extra) * (cs : Int)).toNat }

/-- Constructor `ostream_buffer(DynamicBuffer& b)`: the put area of a fresh
`std::basic_streambuf` is null, then `prepare()`. -/
def ctor (P : Policy) (cs : Nat) (b : DynamicBuffer) : ostream_buffer :=
  prepare P cs { b_ := b, pbase := 0, pptr := 0, epptr := 0 }

/-- Member `overflow(ch)`. -/
def overflow (P : Policy) (cs : Nat) (o : ostream_buffer) (ch : Option (CharT cs)) :
    ostream_buffer × Option (CharT cs) :=
  match ch with
  | some c =>
    let o1 := assign cs o c
    let o2 := flush cs o1 1
    let o3 := prepare P cs o2
    (o3, some c)
  | none => (flush cs o 0, none)

/-- Member `sync()`. -/
def sync (P : Policy) (cs : Nat) (o : ostream_buffer) : ostream_buffer × Int :=
  let o1 := flush cs o 0
  let o2 := prepare P cs o1
  (o2, 0)

/-- Destructor `~ostream_buffer()`: `sync()`; what is left is the buffer. -/
def dtor (P : Policy) (cs : Nat) (o : ostream_buffer) : DynamicBuffer :=
  (sync P cs o).1.b_

/-- Modelled from the spec: `write(ch)` (member `sputc` of `std::basic_streambuf`):
store and advance when the window has room, otherwise `overflow(ch)`. -/
def write (P : Policy) (cs : Nat) (o : ostream_buffer) (c : CharT cs) :
    ostream_buffer × Option (CharT cs) :=
  if o.pptr < o.epptr then
    ({ assign cs o c with pptr := o.pptr + 1 }, some c)
  else overflow P cs o (some c)

/-- Write a sequence of characters one by one. -/
def writeAll (P : Policy) (cs : Nat) (o : ostream_buffer) : List (CharT cs) → ostream_buffer
  | [] => o
  | c :: cs' => writeAll P cs (write P cs o c).1 cs'

end ostream_buffer_true

/-! ## `ostream_buffer<DynamicBuffer, CharT, Traits, false>` -/

namespace ostream_buffer_false

/-- Member `prepare()`, the grow procedure. -/
def prepare (P : Policy) (cs : Nat) (o : ostream_buffer) : ostream_buffer :=
  let r := o.b_.prepare P (max_prepare o.b_.size o.b_.capacity o.b_.max_size)
  let b := buffers_front r.2
  let p : Int := 0
  setp { o with b_ := r.1 } p (p + ((b.length / cs : Nat) : Int) - 1)

/-- Member `flush(extra)`. -/
def flush (cs : Nat) (o : ostream_buffer) (extra : Int) : ostream_buffer :=
  { o with b_ := o.b_.commit ((o.pptr - o.pbase + extra) * (cs : Int)).toNat }

/-- Constructor `ostream_buffer(DynamicBuffer& b)`. -/
def ctor (P : Policy) (cs : Nat) (b : DynamicBuffer) : ostream_buffer :=
  prepare P cs { b_ := b, pbase := 0, pptr := 0, epptr := 0 }

/-- Member `overflow(ch)`. -/
def overflow (P : Policy) (cs : Nat) (o : ostream_buffer) (ch : Option (CharT cs)) :
    ostream_buffer × Option (CharT cs) :=
  match ch with
  | some c =>
    let o1 := assign cs o c
    let o2 := flush cs o1 1
    let o3 := prepare P cs o2
    (o3, some c)
  | none => (flush cs o 0, none)

/-- Member `sync()`. -/
def sync (P : Policy) (cs : Nat) (o : ostream_buffer) : ostream_buffer × Int :=
  let o1 := flush cs o 0
  let o2 := prepare P cs o1
  (o2, 0)

/-- Destructor `~ostream_buffer()`: `sync()`; what is left is the buffer. -/
def dtor (P : Policy) (cs : Nat) (o : ostream_buffer) : DynamicBuffer :=
  (sync P cs o).1.b_

/-- Modelled from the spec: `write(ch)` (member `sputc` of `std::basic_streambuf`):
store and advance when the window has room, otherwise `overflow(ch)`. -/
def write (P : Policy) (cs : Nat) (o : ostream_buffer) (c : CharT cs) :
    ostream_buffer × Option (CharT cs) :=
  if o.pptr < o.epptr then
    ({ assign cs o c with pptr := o.pptr + 1 }, some c)
  else overflow P cs o (some c)

/-- Write a sequence of characters one by one. -/
def writeAll (P : Policy) (cs : Nat) (o : ostream_buffer) : List (CharT cs) → ostream_buffer
  | [] => o
  | c :: cs' => writeAll P cs (write P cs o c).1 cs'

end ostream_buffer_false

/-! ## `ostream_helper<DynamicBuffer, CharT, Traits, true>` (the writer is held inline) -/

/-- The Direct front end: the member `osb_`; the stream writes through `&osb_`. -/
structure ostream_helper_true where
  osb_ : ostream_buffer
deriving DecidableEq

namespace ostream_helper_true

/-- Constructor `ostream_helper(DynamicBuffer& b)`: `osb_(b)`. -/
def ctor (P : Policy) (cs : Nat) (b : DynamicBuffer) : ostream_helper_true :=
  { osb_ := ostream_buffer_true.ctor P cs b }

/-- Move constructor `ostream_helper(ostream_helper&& other)`:
`osb_(std::move(other.osb_))` runs the defaulted move constructor of
`ostream_buffer`, which copies the reference `b_` and, `std::basic_streambuf`
having a copy constructor only, the put area pointers. The result is the new
object and `other` as it is left behind. -/
def move_ctor (other : ostream_helper_true) : ostream_helper_true × ostream_helper_true :=
  ({ osb_ := other.osb_ }, other)

/-- The stream writes a sequence of characters through its sink `&osb_`. -/
def writeAll (P : Policy) (cs : Nat) (h : ostream_helper_true) (u : List (CharT cs)) :
    ostream_helper_true :=
  { osb_ := ostream_buffer_true.writeAll P cs h.osb_ u }

/-- The object sees the referenced buffer in its current state `b`. -/
def rebind (h : ostream_helper_true) (b : DynamicBuffer) : ostream_helper_true :=
  { osb_ := { h.osb_ with b_ := b } }

/-- Destructor: the member `osb_` is destroyed. -/
def dtor (P : Policy) (cs : Nat) (h : ostream_helper_true) : DynamicBuffer :=
  ostream_buffer_true.dtor P cs h.osb_

/-- Scenario: construct on `b`, write `u`, write `v`, destroy; no move. -/
def run_unmoved (P : Policy) (cs : Nat) (b : DynamicBuffer) (u v : List (CharT cs)) :
    DynamicBuffer :=
  dtor P cs (writeAll P cs (writeAll P cs (ctor P cs b) u) v)

/-- Scenario: construct on `b`, write `u`, move-construct a new front end, the
moved-from one is destroyed, write `v` through the new one, destroy it. -/
def run_moved (P : Policy) (cs : Nat) (b : DynamicBuffer) (u v : List (CharT cs)) :
    DynamicBuffer :=
  let h1 := writeAll P cs (ctor P cs b) u
  let m := move_ctor h1
  let b1 := dtor P cs m.2
  let h2 := writeAll P cs (m.1.rebind b1) v
  dtor P cs h2

end ostream_helper_true

/-! ## `ostream_helper<DynamicBuffer, CharT, Traits, false>` (the writer is held by `unique_ptr`) -/

/-- The Indirect front end: the owning slot `member` of `ostream_helper_base`
(`none` is the null pointer). -/
structure ostream_helper_false where
  member : Option ostream_buffer
deriving DecidableEq

namespace ostream_helper_false

/-- Constructor `ostream_helper(DynamicBuffer& b)`: `member(new ostream_buffer(b))`. -/
def ctor (P : Policy) (cs : Nat) (b : DynamicBuffer) : ostream_helper_false :=
  { member := some (ostream_buffer_false.ctor P cs b) }

/-- Move constructor `ostream_helper(ostream_helper&& other)`: the defaulted move
of `ostream_helper_base` moves the `unique_ptr`, leaving `other.member` null. The
result is the new object and `other` as it is left behind. -/
def move_ctor (other : ostream_helper_false) : ostream_helper_false × ostream_helper_false :=
  ({ member := other.member }, { member := none })

/-- The stream writes a sequence of characters through its sink `member.get()`. -/
def writeAll (P : Policy) (cs : Nat) (h : ostream_helper_false) (u : List (CharT cs)) :
    ostream_helper_false :=
  { member := h.member.map (fun o => ostream_buffer_false.writeAll P cs o u) }

/-- The object sees the referenced buffer in its current state `b`. -/
def rebind (h : ostream_helper_false) (b : DynamicBuffer) : ostream_helper_false :=
  { member := h.member.map (fun o => { o with b_ := b }) }

/-- Destructor: the `unique_ptr` deletes the writer it owns, if any; `b` is the
referenced buffer before the call. -/
def dtor (P : Policy) (cs : Nat) (h : ostream_helper_false) (b : DynamicBuffer) : DynamicBuffer :=
  match h.member with
  | some o => ostream_buffer_false.dtor P cs o
  | none => b

/-- The referenced buffer as the owned writer sees it (`b` when nothing is owned). -/
def buffer (h : ostream_helper_false) (b : DynamicBuffer) : DynamicBuffer :=
  match h.member with
  | some o => o.b_
  | none => b

/-- Scenario: construct on `b`, write `u`, write `v`, destroy; no move. -/
def run_unmoved (P : Policy) (cs : Nat) (b : DynamicBuffer) (u v : List (CharT cs)) :
    DynamicBuffer :=
  let h := writeAll P cs (writeAll P cs (ctor P cs b) u) v
  dtor P cs h (h.buffer b)

/-- Scenario: construct on `b`, write `u`, move-construct a new front end, the
moved-from one is destroyed, write `v` through the new one, destroy it. -/
def run_moved (P : Policy) (cs : Nat) (b : DynamicBuffer) (u v : List (CharT cs)) :
    DynamicBuffer :=
  let h1 := writeAll P cs (ctor P cs b) u
  let m := move_ctor h1
  let b1 := dtor P cs m.2 (m.1.buffer b)
  let h2 := writeAll P cs (m.1.rebind b1) v
  dtor P cs h2 (h2.buffer b1)

end ostream_helper_false

/-- Spec side of the grow target: "at least 512 bytes, but no more than
`max(512, capacity − size)`, never exceeding 65536 bytes nor `max_size − size`",
in exact (non-wrapping) arithmetic. -/
def spec_target (size capacity max_size : Nat) : Nat :=
  min (max 512 (capacity - size)) (min 65536 (max_size - size))

/-- The bytes of a sequence of characters, in order. -/
def bytesOf {cs : Nat} (u : List (CharT cs)) : List Byte :=
  (u.map CharT.bytes).flatten

/-- The window lies over the first segment of the current output sequence, of
which nothing has been committed yet, and holds the characters `pending`. -/
def WindowOver (cs : Nat) (o : ostream_buffer) (pending : List (CharT cs)) : Prop :=
  ∃ seg rest, o.b_.out = seg :: rest ∧ o.b_.used = 0 ∧ o.pbase = 0 ∧
    o.pptr = (pending.length : Int) ∧ o.pptr ≤ o.epptr ∧
    o.epptr = ((seg.length / cs : Nat) : Int) - 1 ∧
    seg.take (pending.length * cs) = bytesOf pending

/-- The first segment of every prepare result holds at least one character. -/
def FirstSegmentHoldsChar (P : Policy) (cs : Nat) : Prop :=
  ∀ (b : DynamicBuffer) (n : Nat), cs ≤ (buffers_front (P.segments b n)).length

/-! ## Concrete buffers and policies used to instantiate the theorems -/

/-- A contiguous buffer: `prepare(n)` hands out one zeroed segment of `n` bytes. -/
def flatPolicy : Policy where
  segments := fun _ n => [List.replicate n 0]
  capacity := fun b n => max b.cap (b.data.length + n)

/-- A fragmented buffer: `prepare(n)` hands out a first segment of 3 bytes and a
second one of `n` bytes. -/
def fragPolicy : Policy where
  segments := fun _ n => [List.replicate 3 7, List.replicate n 9]
  capacity := fun b n => max b.cap (b.data.length + n + 3)

/-- A buffer holding one byte, with eight bytes of room under its maximum. -/
def sampleBuffer : DynamicBuffer :=
  { data := [42], out := [], used := 0, cap := 1, maxSize := 9, calls := [] }

/-- A buffer that has reached its maximum size. -/
def fullBuffer : DynamicBuffer :=
  { data := [1, 2], out := [], used := 0, cap := 2, maxSize := 2, calls := [] }

/-- A single-byte character. -/
def ch (x : Byte) : CharT 1 := { bytes := [x], size_eq := rfl }

/-- A writer over `sampleBuffer` holding two characters in its window. -/
def sampleWriter : ostream_buffer :=
  ostream_buffer_true.writeAll flatPolicy 1 (ostream_buffer_true.ctor flatPolicy 1 sampleBuffer)
    [ch 10, ch 11]

/-! ## Sequences of operations -/

/-- An operation on a writer: `write(ch)`, `overflow(ch)` or `sync()`. -/
inductive WriterOp (cs : Nat) where
  | write (c : CharT cs)
  | overflow (ch : Option (CharT cs))
  | sync
deriving DecidableEq

/-- The value an operation returns: an `int_type`, an `int`, or nothing. -/
inductive Ret (cs : Nat) where
  | int_type (r : Option (CharT cs))
  | int (r : Int)
  | void
deriving DecidableEq

/-- An operation on a front end: an operation of its writer, or move-constructing
a new front end from it (the moved-from one is destroyed, the new one carries on). -/
inductive FrontOp (cs : Nat) where
  | op (w : WriterOp cs)
  | move
deriving DecidableEq

namespace ostream_buffer_true

/-- One operation on the writer, with the value it returns. -/
def step (P : Policy) (cs : Nat) (o : ostream_buffer) : WriterOp cs → ostream_buffer × Ret cs
  | WriterOp.write c => ((write P cs o c).1, Ret.int_type (write P cs o c).2)
  | WriterOp.overflow ch => ((overflow P cs o ch).1, Ret.int_type (overflow P cs o ch).2)
  | WriterOp.sync => ((sync P cs o).1, Ret.int (sync P cs o).2)

/-- A sequence of operations on the writer, with the values returned. -/
def run (P : Policy) (cs : Nat) (o : ostream_buffer) :
    List (WriterOp cs) → ostream_buffer × List (Ret cs)
  | [] => (o, [])
  | w :: ws => ((run P cs (step P cs o w).1 ws).1, (step P cs o w).2 :: (run P cs (step P cs o w).1 ws).2)

end ostream_buffer_true

namespace ostream_buffer_false

/-- One operation on the writer, with the value it returns. -/
def step (P : Policy) (cs : Nat) (o : ostream_buffer) : WriterOp cs → ostream_buffer × Ret cs
  | WriterOp.write c => ((write P cs o c).1, Ret.int_type (write P cs o c).2)
  | WriterOp.overflow ch => ((overflow P cs o ch).1, Ret.int_type (overflow P cs o ch).2)
  | WriterOp.sync => ((sync P cs o).1, Ret.int (sync P cs o).2)

/-- A sequence of operations on the writer, with the values returned. -/
def run (P : Policy) (cs : Nat) (o : ostream_buffer) :
    List (WriterOp cs) → ostream_buffer × List (Ret cs)
  | [] => (o, [])
  | w :: ws => ((run P cs (step P cs o w).1 ws).1, (step P cs o w).2 :: (run P cs (step P cs o w).1 ws).2)

end ostream_buffer_false

namespace ostream_helper_true

/-- One operation on the Direct front end. -/
def step (P : Policy) (cs : Nat) (h : ostream_helper_true) :
    FrontOp cs → ostream_helper_true × Ret cs
  | FrontOp.op w =>
    ({ osb_ := (ostream_buffer_true.step P cs h.osb_ w).1 },
     (ostream_buffer_true.step P cs h.osb_ w).2)
  | FrontOp.move => ((move_ctor h).1.rebind (dtor P cs (move_ctor h).2), Ret.void)

/-- A sequence of operations on the Direct front end. -/
def steps (P : Policy) (cs : Nat) (h : ostream_helper_true) :
    List (FrontOp cs) → ostream_helper_true × List (Ret cs)
  | [] => (h, [])
  | f :: fs => ((steps P cs (step P cs h f).1 fs).1,
      (step P cs h f).2 :: (steps P cs (step P cs h f).1 fs).2)

/-- Construct on `b`, perform the operations, destroy: the buffer left behind and
the values returned. -/
def run_ops (P : Policy) (cs : Nat) (b : DynamicBuffer) (fs : List (FrontOp cs)) :
    DynamicBuffer × List (Ret cs) :=
  (dtor P cs (steps P cs (ctor P cs b) fs).1, (steps P cs (ctor P cs b) fs).2)

end ostream_helper_true

namespace ostream_helper_false

/-- One operation on the Indirect front end; `b` is the referenced buffer as it
was when the front end was constructed (used only when no writer is owned). -/
def step (P : Policy) (cs : Nat) (b : DynamicBuffer) (h : ostream_helper_false) :
    FrontOp cs → ostream_helper_false × Ret cs
  | FrontOp.op w =>
    match h.member with
    | some o =>
      ({ member := some (ostream_buffer_false.step P cs o w).1 },
       (ostream_buffer_false.step P cs o w).2)
    | none => (h, Ret.void)
  | FrontOp.move =>
    ((move_ctor h).1.rebind (dtor P cs (move_ctor h).2 ((move_ctor h).1.buffer b)), Ret.void)

/-- A sequence of operations on the Indirect front end. -/
def steps (P : Policy) (cs : Nat) (b : DynamicBuffer) (h : ostream_helper_false) :
    List (FrontOp cs) → ostream_helper_false × List (Ret cs)
  | [] => (h, [])
  | f :: fs => ((steps P cs b (step P cs b h f).1 fs).1,
      (step P cs b h f).2 :: (steps P cs b (step P cs b h f).1 fs).2)

/-- Construct on `b`, perform the operations, destroy: the buffer left behind and
the values returned. -/
def run_ops (P : Policy) (cs : Nat) (b : DynamicBuffer) (fs : List (FrontOp cs)) :
    DynamicBuffer × List (Ret cs) :=
  (dtor P cs (steps P cs b (ctor P cs b) fs).1 ((steps P cs b (ctor P cs b) fs).1.buffer b),
   (steps P cs b (ctor P cs b) fs).2)

end ostream_helper_false

/-! ## The Span Writer -/

/-- Modelled from the spec: the raw byte sink (`std::ostream`): the bytes written
to it so far, in order; `addr` identifies the sink object. -/
structure ostream where
  addr : Nat
  written : List Byte
deriving DecidableEq

namespace ostream

/-- Modelled from the spec: `os.write(p, n)` appends the `n` bytes at `p` to the sink. -/
def write (os : ostream) (bytes : List Byte) : ostream :=
  { os with written := os.written ++ bytes }

/-- Modelled from the spec: the write position of the sink. -/
def tellp (os : ostream) : Nat := os.written.length

end ostream

/-- The class `buffers_helper<Buffers>`: a copy `b_` of a buffer sequence, an
ordered list of spans. -/
structure buffers_helper where
  b_ : List (List Byte)
deriving DecidableEq

/-- The body of the range-for loop of `operator<<` over the spans still to visit. -/
def write_spans (os : ostream) : List (List Byte) → ostream
  | [] => os
  | b :: bs => write_spans (os.write b) bs

/-- The function `operator<<(std::ostream& os, buffers_helper<Buffers> const& v)`. -/
def operator_shl (os : ostream) (v : buffers_helper) : ostream :=
  write_spans os v.b_

/-! ## Predicates on runs -/

/-- The argument `flush(extra)` passes to `commit` is within the bytes outstanding
from the most recent prepare. -/
def FlushWithin (cs : Nat) (o : ostream_buffer) (extra : Int) : Prop :=
  ((o.pptr - o.pbase + extra) * (cs : Int)).toNat ≤ o.b_.outstanding.length

/-- The commit an operation issues, if it issues one, is within the bytes
outstanding at that moment. -/
def CommitWithin (cs : Nat) (o : ostream_buffer) : WriterOp cs → Prop
  | WriterOp.write c => o.pptr < o.epptr ∨ FlushWithin cs (assign cs o c) 1
  | WriterOp.overflow (some c) => FlushWithin cs (assign cs o c) 1
  | WriterOp.overflow none => FlushWithin cs o 0
  | WriterOp.sync => FlushWithin cs o 0

/-- Every commit issued along a sequence of operations is within the bytes
outstanding when it is issued; the last conjunct is the commit of the destructor. -/
def AllCommitsWithin (P : Policy) (cs : Nat) : ostream_buffer → List (WriterOp cs) → Prop
  | o, [] => FlushWithin cs o 0
  | o, w :: ws => CommitWithin cs o w ∧ AllCommitsWithin P cs (ostream_buffer_true.step P cs o w).1 ws

instance FlushWithin.decidable (cs : Nat) (o : ostream_buffer) (extra : Int) :
    Decidable (FlushWithin cs o extra) :=
  inferInstanceAs
    (Decidable (((o.pptr - o.pbase + extra) * (cs : Int)).toNat ≤ o.b_.outstanding.length))

instance CommitWithin.decidable (cs : Nat) (o : ostream_buffer) :
    (w : WriterOp cs) → Decidable (CommitWithin cs o w)
  | WriterOp.write c =>
    inferInstanceAs (Decidable (o.pptr < o.epptr ∨ FlushWithin cs (assign cs o c) 1))
  | WriterOp.overflow (some c) => inferInstanceAs (Decidable (FlushWithin cs (assign cs o c) 1))
  | WriterOp.overflow none => inferInstanceAs (Decidable (FlushWithin cs o 0))
  | WriterOp.sync => inferInstanceAs (Decidable (FlushWithin cs o 0))

instance AllCommitsWithin.decidable (P : Policy) (cs : Nat) :
    (o : ostream_buffer) → (ws : List (WriterOp cs)) → Decidable (AllCommitsWithin P cs o ws)
  | o, [] => inferInstanceAs (Decidable (FlushWithin cs o 0))
  | o, w :: ws =>
    @instDecidableAnd _ _ (CommitWithin.decidable cs o w)
      (AllCommitsWithin.decidable P cs (ostream_buffer_true.step P cs o w).1 ws)

/-- The operation is not `overflow` with the end-of-output sentinel. -/
def WriterOp.noEof {cs : Nat} : WriterOp cs → Prop
  | WriterOp.overflow none => False
  | _ => True

/-- The arguments of the commit calls of a log, in order. -/
def commitArgs : List Call → List Nat
  | [] => []
  | Call.commit k :: rest => k :: commitArgs rest
  | Call.prepare _ :: rest => commitArgs rest

/-- The number of prepare calls of a log. -/
def prepareCount : List Call → Nat
  | [] => 0
  | Call.commit _ :: rest => prepareCount rest
  | Call.prepare _ :: rest => prepareCount rest + 1

/-- The first segment of every prepare result holds exactly one character. -/
def FirstSegmentHoldsOneChar (P : Policy) (cs : Nat) : Prop :=
  ∀ (b : DynamicBuffer) (n : Nat), (buffers_front (P.segments b n)).length / cs = 1

/-- The window lies over the first segment `seg` of the current output sequence
and holds `n` characters, `n` at most its capacity. -/
def WindowBound (cs : Nat) (o : ostream_buffer) (seg : List Byte) (n : Nat) : Prop :=
  (∃ rest, o.b_.out = seg :: rest) ∧ o.pbase = 0 ∧ o.pptr = (n : Int) ∧ o.pptr ≤ o.epptr ∧
    o.epptr = ((seg.length / cs : Nat) : Int) - 1

/-- A buffer whose every prepare hands out one segment of a single byte. -/
def bytePolicy : Policy where
  segments := fun _ _ => [[0]]
  capacity := fun b _ => max b.cap (b.data.length + 1)

/-! ## Basic facts about the operations -/

theorem toNat_chars (n e cs : Nat) : (((n : Int) + (e : Int)) * (cs : Int)).toNat = (n + e) * cs := by
  have h : ((n : Int) + (e : Int)) * (cs : Int) = (((n + e) * cs : Nat) : Int) := by push_cast; ring
  rw [h, Int.toNat_ofNat]

theorem size_t_sub_eq (a b : Nat) (hba : b ≤ a) (ha : a < 2 ^ 64) : size_t_sub a b = a - b := by
  unfold size_t_sub SIZE_BITS
  have hb : b < 2 ^ 64 := lt_of_le_of_lt hba ha
  rw [Nat.mod_eq_of_lt ha, Nat.mod_eq_of_lt hb]
  omega

theorem pokeSegment_length (cs : Nat) (seg : List Byte) (slot : Int) (c : CharT cs) :
    (pokeSegment cs seg slot c).length = seg.length := by
  unfold pokeSegment
  split
  · rename_i h
    simp only [List.length_append, List.length_take, List.length_drop, c.size_eq]
    have h1 := h.2
    have h2 : slot.toNat * cs ≤ seg.length := by nlinarith
    rw [Nat.min_eq_left h2]
    have : (slot.toNat + 1) * cs = slot.toNat * cs + cs := by ring
    omega
  · rfl

theorem assign_calls (cs : Nat) (o : ostream_buffer) (c : CharT cs) :
    (assign cs o c).b_.calls = o.b_.calls := by
  unfold assign; split <;> rfl

theorem assign_data (cs : Nat) (o : ostream_buffer) (c : CharT cs) :
    (assign cs o c).b_.data = o.b_.data := by
  unfold assign; split <;> rfl

theorem assign_used (cs : Nat) (o : ostream_buffer) (c : CharT cs) :
    (assign cs o c).b_.used = o.b_.used := by
  unfold assign; split <;> rfl

theorem assign_cap (cs : Nat) (o : ostream_buffer) (c : CharT cs) :
    (assign cs o c).b_.cap = o.b_.cap := by
  unfold assign; split <;> rfl

theorem assign_maxSize (cs : Nat) (o : ostream_buffer) (c : CharT cs) :
    (assign cs o c).b_.maxSize = o.b_.maxSize := by
  unfold assign; split <;> rfl

theorem assign_pbase (cs : Nat) (o : ostream_buffer) (c : CharT cs) :
    (assign cs o c).pbase = o.pbase := by
  unfold assign; split <;> rfl

theorem assign_pptr (cs : Nat) (o : ostream_buffer) (c : CharT cs) :
    (assign cs o c).pptr = o.pptr := by
  unfold assign; split <;> rfl

theorem assign_epptr (cs : Nat) (o : ostream_buffer) (c : CharT cs) :
    (assign cs o c).epptr = o.epptr := by
  unfold assign; split <;> rfl

theorem assign_out_cons (cs : Nat) (o : ostream_buffer) (c : CharT cs) (seg : List Byte)
    (rest : List (List Byte)) (h : o.b_.out = seg :: rest) :
    (assign cs o c).b_.out = pokeSegment cs seg o.pptr c :: rest := by
  unfold assign; rw [h]

theorem pokeSegment_take (cs : Nat) (seg : List Byte) (n : Nat) (c : CharT cs)
    (h : (n + 1) * cs ≤ seg.length) :
    (pokeSegment cs seg (n : Int) c).take ((n + 1) * cs) = seg.take (n * cs) ++ c.bytes := by
  unfold pokeSegment
  have h0 : (0 : Int) ≤ (n : Int) := Int.ofNat_nonneg n
  simp only [Int.toNat_ofNat, h0, h, and_self, if_true]
  have hle : n * cs ≤ seg.length := by nlinarith
  have hlen : (seg.take (n * cs) ++ c.bytes).length = (n + 1) * cs := by
    simp only [List.length_append, List.length_take, c.size_eq, Nat.min_eq_left hle]
    ring
  rw [List.take_append_of_le_length (le_of_eq hlen.symm)]
  exact List.take_of_length_le (le_of_eq hlen)

/-! ## The window invariant -/

theorem bytesOf_append {cs : Nat} (u v : List (CharT cs)) :
    bytesOf (u ++ v) = bytesOf u ++ bytesOf v := by
  simp [bytesOf]

theorem bytesOf_cons {cs : Nat} (c : CharT cs) (u : List (CharT cs)) :
    bytesOf (c :: u) = c.bytes ++ bytesOf u := by
  simp [bytesOf]

theorem bytesOf_length {cs : Nat} (u : List (CharT cs)) :
    (bytesOf u).length = u.length * cs := by
  induction u with
  | nil => simp [bytesOf]
  | cons c u ih => rw [bytesOf_cons, List.length_append, ih, c.size_eq, List.length_cons]; ring

theorem slot_fits (cs L n : Nat) (h : (n : Int) ≤ ((L / cs : Nat) : Int) - 1) :
    (n + 1) * cs ≤ L := by
  have h1 : n + 1 ≤ L / cs := by omega
  calc (n + 1) * cs ≤ L / cs * cs := Nat.mul_le_mul_right cs h1
    _ ≤ L := Nat.div_mul_le_self L cs

theorem prepare_windowOver (P : Policy) (cs : Nat) (hcs : 0 < cs)
    (hP : FirstSegmentHoldsChar P cs) (o : ostream_buffer) :
    WindowOver cs (ostream_buffer_true.prepare P cs o) [] := by
  have h := hP o.b_ (max_prepare o.b_.size o.b_.capacity o.b_.max_size)
  cases hseg : P.segments o.b_ (max_prepare o.b_.size o.b_.capacity o.b_.max_size) with
  | nil =>
    rw [hseg] at h
    simp [buffers_front] at h
    omega
  | cons seg rest =>
    rw [hseg] at h
    simp only [buffers_front, List.headD_cons] at h
    have hd : 1 ≤ seg.length / cs := (Nat.one_le_div_iff hcs).mpr h
    refine ⟨seg, rest, ?_, rfl, rfl, rfl, ?_, ?_, ?_⟩
    · simp [ostream_buffer_true.prepare, setp, DynamicBuffer.prepare, hseg]
    · simp only [ostream_buffer_true.prepare, setp, DynamicBuffer.prepare, hseg, buffers_front,
        List.headD_cons]
      omega
    · simp [ostream_buffer_true.prepare, setp, DynamicBuffer.prepare, hseg, buffers_front]
    · simp [bytesOf]

theorem write_room (P : Policy) (cs : Nat) (o : ostream_buffer) (pending : List (CharT cs))
    (c : CharT cs) (hw : WindowOver cs o pending) (hroom : o.pptr < o.epptr) :
    WindowOver cs (ostream_buffer_true.write P cs o c).1 (pending ++ [c]) ∧
    (ostream_buffer_true.write P cs o c).1.b_.data = o.b_.data ∧
    (ostream_buffer_true.write P cs o c).1.b_.calls = o.b_.calls ∧
    (ostream_buffer_true.write P cs o c).1.epptr = o.epptr ∧
    (ostream_buffer_true.write P cs o c).1.b_.cap = o.b_.cap ∧
    (ostream_buffer_true.write P cs o c).1.b_.maxSize = o.b_.maxSize := by
  obtain ⟨seg, rest, hout, hused, hpb, hpp, hle, hep, htake⟩ := hw
  have hfit : (pending.length + 1) * cs ≤ seg.length := by
    apply slot_fits; rw [← hep, ← hpp]; exact hle
  simp only [ostream_buffer_true.write, hroom, if_true]
  refine ⟨⟨pokeSegment cs seg o.pptr c, rest, ?_, ?_, ?_, ?_, ?_, ?_, ?_⟩, ?_, ?_, ?_,
    assign_cap cs o c, assign_maxSize cs o c⟩
  · simp [assign_out_cons cs o c seg rest hout]
  · simp [assign_used, hused]
  · simp [assign_pbase, hpb]
  · simp [hpp]
  · simp only [assign_epptr]; omega
  · simp only [assign_epptr, pokeSegment_length]; exact hep
  · rw [hpp, List.length_append, List.length_singleton, pokeSegment_take cs seg _ c hfit, htake,
      bytesOf_append]
    simp [bytesOf]
  · simp [assign_data]
  · simp [assign_calls]
  · simp [assign_epptr]

theorem write_full_effect (P : Policy) (cs : Nat)
    (o : ostream_buffer) (pending : List (CharT cs))
    (c : CharT cs) (hw : WindowOver cs o pending) (hfull : ¬ o.pptr < o.epptr) :
    (ostream_buffer_true.write P cs o c).1.b_.data = o.b_.data ++ bytesOf pending ++ c.bytes ∧
    (ostream_buffer_true.write P cs o c).1.b_.calls =
      o.b_.calls ++ [Call.commit ((pending.length + 1) * cs),
        Call.prepare (max_prepare (o.b_.size + (pending.length + 1) * cs)
          o.b_.capacity o.b_.max_size)] := by
  obtain ⟨seg, rest, hout, hused, hpb, hpp, hle, hep, htake⟩ := hw
  have hfit : (pending.length + 1) * cs ≤ seg.length := by
    apply slot_fits; rw [← hep, ← hpp]; exact hle
  have hk : ((o.pptr - o.pbase + 1) * (cs : Int)).toNat = (pending.length + 1) * cs := by
    rw [hpp, hpb, sub_zero]; exact toNat_chars _ 1 cs
  have hout' : ((assign cs o c).b_.outstanding).take ((pending.length + 1) * cs) =
      bytesOf pending ++ c.bytes := by
    simp only [DynamicBuffer.outstanding, assign_used, hused, List.drop_zero,
      assign_out_cons cs o c seg rest hout, List.flatten_cons, hpp]
    rw [List.take_append_of_le_length (by rw [pokeSegment_length]; exact hfit),
      pokeSegment_take cs seg _ c hfit, htake]
  have hdata : (ostream_buffer_true.write P cs o c).1.b_.data =
      o.b_.data ++ bytesOf pending ++ c.bytes := by
    simp only [ostream_buffer_true.write, hfull, if_false, ostream_buffer_true.overflow,
      ostream_buffer_true.prepare, ostream_buffer_true.flush, setp, DynamicBuffer.prepare,
      DynamicBuffer.commit, assign_pptr, assign_pbase, assign_data, hk, hout',
      List.append_assoc]
  refine ⟨hdata, ?_⟩
  · have hsz : (o.b_.data ++ (bytesOf pending ++ c.bytes)).length =
        o.b_.size + (pending.length + 1) * cs := by
      simp only [List.length_append, bytesOf_length, c.size_eq, DynamicBuffer.size]; ring
    simp only [ostream_buffer_true.write, hfull, if_false, ostream_buffer_true.overflow,
      ostream_buffer_true.prepare, ostream_buffer_true.flush, setp, DynamicBuffer.prepare,
      DynamicBuffer.commit, DynamicBuffer.size, DynamicBuffer.capacity, DynamicBuffer.max_size,
      assign_pptr, assign_pbase, assign_calls, assign_cap, assign_maxSize, assign_data, hk,
      hout', List.append_assoc, List.singleton_append]
    rw [hsz]; rfl

theorem write_full (P : Policy) (cs : Nat) (hcs : 0 < cs) (hP : FirstSegmentHoldsChar P cs)
    (o : ostream_buffer) (pending : List (CharT cs))
    (c : CharT cs) (hw : WindowOver cs o pending) (hfull : ¬ o.pptr < o.epptr) :
    WindowOver cs (ostream_buffer_true.write P cs o c).1 [] ∧
    (ostream_buffer_true.write P cs o c).1.b_.data = o.b_.data ++ bytesOf pending ++ c.bytes := by
  refine ⟨?_, (write_full_effect P cs o pending c hw hfull).1⟩
  simp only [ostream_buffer_true.write, hfull, if_false, ostream_buffer_true.overflow]
  exact prepare_windowOver P cs hcs hP _

theorem sync_windowOver (P : Policy) (cs : Nat) (o : ostream_buffer)
    (pending : List (CharT cs)) (hw : WindowOver cs o pending) :
    (ostream_buffer_true.sync P cs o).1.b_.data = o.b_.data ++ bytesOf pending := by
  obtain ⟨seg, rest, hout, hused, hpb, hpp, hle, hep, htake⟩ := hw
  have hk : ((o.pptr - o.pbase + 0) * (cs : Int)).toNat = pending.length * cs := by
    rw [hpp, hpb, sub_zero]; exact toNat_chars _ 0 cs
  have hfit : pending.length * cs ≤ seg.length := by
    have := congrArg List.length htake
    rw [bytesOf_length, List.length_take] at this
    omega
  have ho : o.b_.outstanding.take (pending.length * cs) = bytesOf pending := by
    simp only [DynamicBuffer.outstanding, hout, hused, List.drop_zero, List.flatten_cons]
    rw [List.take_append_of_le_length hfit, htake]
  simp only [ostream_buffer_true.sync, ostream_buffer_true.prepare, ostream_buffer_true.flush,
    setp, DynamicBuffer.prepare, DynamicBuffer.commit, hk, ho]

theorem writeAll_sync_data (P : Policy) (cs : Nat) (hcs : 0 < cs)
    (hP : FirstSegmentHoldsChar P cs) (u : List (CharT cs)) :
    ∀ (o : ostream_buffer) (pending : List (CharT cs)), WindowOver cs o pending →
      (ostream_buffer_true.sync P cs (ostream_buffer_true.writeAll P cs o u)).1.b_.data =
        o.b_.data ++ bytesOf pending ++ bytesOf u := by
  induction u with
  | nil =>
    intro o pending hw
    simp only [ostream_buffer_true.writeAll]
    rw [sync_windowOver P cs o pending hw]
    simp [bytesOf]
  | cons c u ih =>
    intro o pending hw
    simp only [ostream_buffer_true.writeAll]
    by_cases hroom : o.pptr < o.epptr
    · obtain ⟨hw', hd, _⟩ := write_room P cs o pending c hw hroom
      rw [ih _ _ hw', hd, bytesOf_append, bytesOf_cons]
      simp [bytesOf]
    · obtain ⟨hw', hd⟩ := write_full P cs hcs hP o pending c hw hroom
      rw [ih _ _ hw', hd, bytesOf_cons]
      simp [bytesOf]

theorem writeAll_room (P : Policy) (cs : Nat) (u : List (CharT cs)) :
    ∀ (o : ostream_buffer) (pending : List (CharT cs)), WindowOver cs o pending →
      ((pending.length + u.length : Nat) : Int) ≤ o.epptr →
      WindowOver cs (ostream_buffer_true.writeAll P cs o u) (pending ++ u) ∧
      (ostream_buffer_true.writeAll P cs o u).b_.data = o.b_.data ∧
      (ostream_buffer_true.writeAll P cs o u).b_.calls = o.b_.calls ∧
      (ostream_buffer_true.writeAll P cs o u).epptr = o.epptr ∧
      (ostream_buffer_true.writeAll P cs o u).b_.cap = o.b_.cap ∧
      (ostream_buffer_true.writeAll P cs o u).b_.maxSize = o.b_.maxSize := by
  induction u with
  | nil =>
    intro o pending hw _
    simpa [ostream_buffer_true.writeAll] using hw
  | cons c u ih =>
    intro o pending hw hlen
    have hpp : o.pptr = (pending.length : Int) := by
      obtain ⟨_, _, _, _, _, hpp, _⟩ := hw
      exact hpp
    have hroom : o.pptr < o.epptr := by
      rw [hpp]
      simp only [List.length_cons] at hlen
      omega
    obtain ⟨hw', hd, hc, he, hcp, hms⟩ := write_room P cs o pending c hw hroom
    have hcount : (pending ++ [c]).length + u.length = pending.length + (c :: u).length := by
      simp only [List.length_append, List.length_cons, List.length_nil]; omega
    have hlen' : (((pending ++ [c]).length + u.length : Nat) : Int) ≤
        (ostream_buffer_true.write P cs o c).1.epptr := by
      rw [he, hcount]; exact hlen
    obtain ⟨hw2, hd2, hc2, he2, hcp2, hms2⟩ := ih _ _ hw' hlen'
    simp only [ostream_buffer_true.writeAll]
    refine ⟨?_, hd2.trans hd, hc2.trans hc, he2.trans he, hcp2.trans hcp, hms2.trans hms⟩
    simpa using hw2

/-! ## Moving the front end -/

theorem indirect_move_same_run (P : Policy) (cs : Nat) (b : DynamicBuffer)
    (u v : List (CharT cs)) :
    ostream_helper_false.run_moved P cs b u v = ostream_helper_false.run_unmoved P cs b u v :=
  rfl

theorem move_ctor_keeps_calls (hT : ostream_helper_true) (hF : ostream_helper_false)
    (b : DynamicBuffer) :
    (ostream_helper_true.move_ctor hT).1.osb_.b_ = hT.osb_.b_ ∧
    ((ostream_helper_false.move_ctor hF).1.buffer b) = hF.buffer b :=
  ⟨rfl, rfl⟩

/-! ## The claims -/

/-- C2: `overflow(ch)` with `ch` not the end-of-output sentinel, on a writer
holding `n` characters: it returns `ch`, issues exactly one commit of
`(n + 1) * sizeof(CharT)` bytes followed by exactly one prepare (the grow), the
committed bytes are the first `(n + 1) * sizeof(CharT)` outstanding bytes after
`ch` has been stored at the write position (so, for a window over the first
segment, the `n` characters of the window followed by `ch`), and the new window
is empty. -/
theorem overflow_char_commits_then_grows (P : Policy) (cs : Nat) (o : ostream_buffer)
    (c : CharT cs) (n : Nat) (hn : o.pptr - o.pbase = (n : Int)) :
    (ostream_buffer_true.overflow P cs o (some c)).2 = some c ∧
    (ostream_buffer_true.overflow P cs o (some c)).1.b_.calls =
      o.b_.calls ++ [Call.commit ((n + 1) * cs),
        Call.prepare (max_prepare ((assign cs o c).b_.commit ((n + 1) * cs)).size
          o.b_.capacity o.b_.max_size)] ∧
    (ostream_buffer_true.overflow P cs o (some c)).1.b_.data =
      o.b_.data ++ (assign cs o c).b_.outstanding.take ((n + 1) * cs) ∧
    (∀ seg rest, o.b_.out = seg :: rest → o.b_.used = 0 → o.pbase = 0 →
      (n + 1) * cs ≤ seg.length →
      (ostream_buffer_true.overflow P cs o (some c)).1.b_.data =
        o.b_.data ++ seg.take (n * cs) ++ c.bytes) ∧
    (ostream_buffer_true.overflow P cs o (some c)).1.pptr =
      (ostream_buffer_true.overflow P cs o (some c)).1.pbase := by
  have hk : ((o.pptr - o.pbase + 1) * (cs : Int)).toNat = (n + 1) * cs := by
    rw [hn]; exact toNat_chars n 1 cs
  have hdata : (ostream_buffer_true.overflow P cs o (some c)).1.b_.data =
      o.b_.data ++ (assign cs o c).b_.outstanding.take ((n + 1) * cs) := by
    simp only [ostream_buffer_true.overflow, ostream_buffer_true.prepare,
      ostream_buffer_true.flush, setp, DynamicBuffer.prepare, DynamicBuffer.commit,
      assign_pptr, assign_pbase, assign_data, hk]
  refine ⟨rfl, ?_, hdata, ?_, rfl⟩
  · simp only [ostream_buffer_true.overflow, ostream_buffer_true.prepare,
      ostream_buffer_true.flush, setp, DynamicBuffer.prepare, DynamicBuffer.commit,
      DynamicBuffer.size, DynamicBuffer.capacity, DynamicBuffer.max_size,
      assign_pptr, assign_pbase, assign_calls, assign_cap, assign_maxSize, hk,
      List.append_assoc, List.singleton_append]
  · intro seg rest hout hused hpb hfit
    rw [hdata]
    have hp : o.pptr = (n : Int) := by rw [hpb] at hn; simpa using hn
    simp only [DynamicBuffer.outstanding, assign_used, hused, List.drop_zero,
      assign_out_cons cs o c seg rest hout, List.flatten_cons, hp]
    rw [List.take_append_of_le_length (by rw [pokeSegment_length]; exact hfit),
      pokeSegment_take cs seg n c hfit, List.append_assoc]

/-- C3: `overflow(eof)` on a writer holding `n` characters: it returns the
sentinel, issues exactly one commit of `n * sizeof(CharT)` bytes and no prepare,
and the committed bytes are the first `n * sizeof(CharT)` outstanding bytes. -/
theorem overflow_eof_commits_only (P : Policy) (cs : Nat) (o : ostream_buffer) (n : Nat)
    (hn : o.pptr - o.pbase = (n : Int)) :
    (ostream_buffer_true.overflow P cs o none).2 = none ∧
    (ostream_buffer_true.overflow P cs o none).1.b_.calls =
      o.b_.calls ++ [Call.commit (n * cs)] ∧
    (ostream_buffer_true.overflow P cs o none).1.b_.data =
      o.b_.data ++ o.b_.outstanding.take (n * cs) := by
  have hk : ((o.pptr - o.pbase + 0) * (cs : Int)).toNat = n * cs := by
    rw [hn]; exact toNat_chars n 0 cs
  refine ⟨rfl, ?_, ?_⟩ <;>
    simp only [ostream_buffer_true.overflow, ostream_buffer_true.flush,
      DynamicBuffer.commit, hk]

/-- C4: `sync()` on a writer holding `n` characters: it returns `0`, issues one
commit of `n * sizeof(CharT)` bytes followed by exactly one prepare, the
committed bytes are the first `n * sizeof(CharT)` outstanding bytes, and the new
window is empty. -/
theorem sync_commits_then_grows (P : Policy) (cs : Nat) (o : ostream_buffer) (n : Nat)
    (hn : o.pptr - o.pbase = (n : Int)) :
    (ostream_buffer_true.sync P cs o).2 = 0 ∧
    (ostream_buffer_true.sync P cs o).1.b_.calls =
      o.b_.calls ++ [Call.commit (n * cs),
        Call.prepare (max_prepare (o.b_.commit (n * cs)).size o.b_.capacity o.b_.max_size)] ∧
    (ostream_buffer_true.sync P cs o).1.b_.data =
      o.b_.data ++ o.b_.outstanding.take (n * cs) ∧
    (ostream_buffer_true.sync P cs o).1.pptr = (ostream_buffer_true.sync P cs o).1.pbase := by
  have hk : ((o.pptr - o.pbase + 0) * (cs : Int)).toNat = n * cs := by
    rw [hn]; exact toNat_chars n 0 cs
  refine ⟨rfl, ?_, ?_, rfl⟩ <;>
    simp only [ostream_buffer_true.sync, ostream_buffer_true.prepare,
      ostream_buffer_true.flush, setp, DynamicBuffer.prepare, DynamicBuffer.commit,
      DynamicBuffer.size, DynamicBuffer.capacity, DynamicBuffer.max_size, hk,
      List.append_assoc, List.singleton_append]

theorem overflow_char_commits_then_grows_witness :
    sampleWriter.pptr - sampleWriter.pbase = ((2 : Nat) : Int) ∧
    (ostream_buffer_true.overflow flatPolicy 1 sampleWriter (some (ch 12))).1.b_.calls =
      [Call.prepare 8, Call.commit 3, Call.prepare 5] ∧
    (ostream_buffer_true.overflow flatPolicy 1 sampleWriter (some (ch 12))).1.b_.data =
      [42, 10, 11, 12] :=
  ⟨by decide,
   (overflow_char_commits_then_grows flatPolicy 1 sampleWriter (ch 12) 2 (by decide)).2.1.trans
     (by decide),
   ((overflow_char_commits_then_grows flatPolicy 1 sampleWriter (ch 12) 2 (by decide)).2.2.2.1
     [10, 11, 0, 0, 0, 0, 0, 0] [] (by decide) (by decide) (by decide) (by decide)).trans
     (by decide)⟩

theorem overflow_eof_commits_only_witness :
    sampleWriter.pptr - sampleWriter.pbase = ((2 : Nat) : Int) ∧
    (ostream_buffer_true.overflow flatPolicy 1 sampleWriter none).1.b_.calls =
      [Call.prepare 8, Call.commit 2] ∧
    (ostream_buffer_true.overflow flatPolicy 1 sampleWriter none).1.b_.data = [42, 10, 11] :=
  ⟨by decide,
   (overflow_eof_commits_only flatPolicy 1 sampleWriter 2 (by decide)).2.1.trans (by decide),
   (overflow_eof_commits_only flatPolicy 1 sampleWriter 2 (by decide)).2.2.trans (by decide)⟩

theorem sync_commits_then_grows_witness :
    sampleWriter.pptr - sampleWriter.pbase = ((2 : Nat) : Int) ∧
    (ostream_buffer_true.sync flatPolicy 1 sampleWriter).1.b_.calls =
      [Call.prepare 8, Call.commit 2, Call.prepare 6] ∧
    (ostream_buffer_true.sync flatPolicy 1 sampleWriter).1.b_.data = [42, 10, 11] :=
  ⟨by decide,
   (sync_commits_then_grows flatPolicy 1 sampleWriter 2 (by decide)).2.1.trans (by decide),
   (sync_commits_then_grows flatPolicy 1 sampleWriter 2 (by decide)).2.2.1.trans (by decide)⟩

/-- C5: destroying a writer holding `n` characters has exactly the effect of
`sync()` on the buffer, in both specializations: the buffer left behind is the
one `sync()` leaves, the calls issued are one commit of `n * sizeof(CharT)` bytes
followed by one prepare, and the committed bytes are the first
`n * sizeof(CharT)` outstanding bytes, which for a window over the first segment
are the `n` characters of the window. -/
theorem dtor_same_as_sync (P : Policy) (cs : Nat) (o : ostream_buffer) (n : Nat)
    (hn : o.pptr - o.pbase = (n : Int)) :
    ostream_buffer_true.dtor P cs o = (ostream_buffer_true.sync P cs o).1.b_ ∧
    ostream_buffer_false.dtor P cs o = (ostream_buffer_false.sync P cs o).1.b_ ∧
    (ostream_buffer_true.dtor P cs o).calls =
      o.b_.calls ++ [Call.commit (n * cs),
        Call.prepare (max_prepare (o.b_.commit (n * cs)).size o.b_.capacity o.b_.max_size)] ∧
    (ostream_buffer_false.dtor P cs o).calls =
      o.b_.calls ++ [Call.commit (n * cs),
        Call.prepare (max_prepare (o.b_.commit (n * cs)).size o.b_.capacity o.b_.max_size)] ∧
    (ostream_buffer_true.dtor P cs o).data = o.b_.data ++ o.b_.outstanding.take (n * cs) ∧
    (ostream_buffer_false.dtor P cs o).data = o.b_.data ++ o.b_.outstanding.take (n * cs) ∧
    (∀ seg rest, o.b_.out = seg :: rest → o.b_.used = 0 → n * cs ≤ seg.length →
      (ostream_buffer_true.dtor P cs o).data = o.b_.data ++ seg.take (n * cs) ∧
      (ostream_buffer_false.dtor P cs o).data = o.b_.data ++ seg.take (n * cs)) := by
  have hk : ((o.pptr - o.pbase + 0) * (cs : Int)).toNat = n * cs := by
    rw [hn]; exact toNat_chars n 0 cs
  have hT : (ostream_buffer_true.dtor P cs o).data =
      o.b_.data ++ o.b_.outstanding.take (n * cs) := by
    simp only [ostream_buffer_true.dtor, ostream_buffer_true.sync, ostream_buffer_true.prepare,
      ostream_buffer_true.flush, setp, DynamicBuffer.prepare, DynamicBuffer.commit, hk]
  have hF : (ostream_buffer_false.dtor P cs o).data =
      o.b_.data ++ o.b_.outstanding.take (n * cs) := by
    simp only [ostream_buffer_false.dtor, ostream_buffer_false.sync,
      ostream_buffer_false.prepare, ostream_buffer_false.flush, setp, DynamicBuffer.prepare,
      DynamicBuffer.commit, hk]
  refine ⟨rfl, rfl, ?_, ?_, hT, hF, ?_⟩
  · simp only [ostream_buffer_true.dtor, ostream_buffer_true.sync, ostream_buffer_true.prepare,
      ostream_buffer_true.flush, setp, DynamicBuffer.prepare, DynamicBuffer.commit,
      DynamicBuffer.size, DynamicBuffer.capacity, DynamicBuffer.max_size, hk,
      List.append_assoc, List.singleton_append]
  · simp only [ostream_buffer_false.dtor, ostream_buffer_false.sync,
      ostream_buffer_false.prepare, ostream_buffer_false.flush, setp, DynamicBuffer.prepare,
      DynamicBuffer.commit, DynamicBuffer.size, DynamicBuffer.capacity,
      DynamicBuffer.max_size, hk, List.append_assoc, List.singleton_append]
  · intro seg rest hout hused hfit
    have ho : o.b_.outstanding.take (n * cs) = seg.take (n * cs) := by
      simp only [DynamicBuffer.outstanding, hout, hused, List.drop_zero, List.flatten_cons]
      exact List.take_append_of_le_length hfit
    rw [hT, hF, ho]
    exact ⟨rfl, rfl⟩

theorem dtor_same_as_sync_witness :
    sampleWriter.pptr - sampleWriter.pbase = ((2 : Nat) : Int) ∧
    (ostream_buffer_true.dtor flatPolicy 1 sampleWriter).data = [42, 10, 11] ∧
    (ostream_buffer_false.dtor flatPolicy 1 sampleWriter).calls =
      [Call.prepare 8, Call.commit 2, Call.prepare 6] :=
  ⟨by decide,
   (dtor_same_as_sync flatPolicy 1 sampleWriter 2 (by decide)).2.2.2.2.1.trans (by decide),
   (dtor_same_as_sync flatPolicy 1 sampleWriter 2 (by decide)).2.2.2.1.trans (by decide)⟩

/-- C7 (as stated, refuted): on a buffer that has reached its maximum size
(`size = capacity = max_size = 2`) the grow procedure requests `prepare(0)`,
which is below 512. -/
theorem growth_lower_bound_fails :
    fullBuffer.size ≤ fullBuffer.capacity ∧ fullBuffer.capacity ≤ fullBuffer.max_size ∧
    (ostream_buffer_true.prepare flatPolicy 1
      { b_ := fullBuffer, pbase := 0, pptr := 0, epptr := 0 }).b_.calls = [Call.prepare 0] ∧
    ¬ (512 ≤ max_prepare fullBuffer.size fullBuffer.capacity fullBuffer.max_size) := by
  decide

/-- C7 (amended): for every buffer state with `size ≤ capacity ≤ max_size`, the
one prepare request the grow procedure issues has an argument that is at most
65536 and at most `max_size − size`, and that is at least 512 whenever
`max_size − size` is at least 512. -/
theorem grow_request_bounds (P : Policy) (cs : Nat) (o : ostream_buffer)
    (h1 : o.b_.size ≤ o.b_.capacity) (h2 : o.b_.capacity ≤ o.b_.max_size)
    (h3 : o.b_.max_size < 2 ^ 64) :
    (ostream_buffer_true.prepare P cs o).b_.calls =
      o.b_.calls ++ [Call.prepare (max_prepare o.b_.size o.b_.capacity o.b_.max_size)] ∧
    max_prepare o.b_.size o.b_.capacity o.b_.max_size ≤ 65536 ∧
    max_prepare o.b_.size o.b_.capacity o.b_.max_size ≤ o.b_.max_size - o.b_.size ∧
    (512 ≤ o.b_.max_size - o.b_.size →
      512 ≤ max_prepare o.b_.size o.b_.capacity o.b_.max_size) := by
  have e1 := size_t_sub_eq o.b_.capacity o.b_.size h1 (lt_of_le_of_lt h2 h3)
  have e2 := size_t_sub_eq o.b_.max_size o.b_.size (le_trans h1 h2) h3
  refine ⟨rfl, ?_, ?_, ?_⟩
  · unfold max_prepare; rw [e1, e2]; omega
  · unfold max_prepare; rw [e1, e2]; omega
  · intro h; unfold max_prepare; rw [e1, e2]; omega

theorem grow_request_bounds_witness :
    sampleWriter.b_.size ≤ sampleWriter.b_.capacity ∧
    sampleWriter.b_.capacity ≤ sampleWriter.b_.max_size ∧
    sampleWriter.b_.max_size < 2 ^ 64 ∧
    (ostream_buffer_true.prepare flatPolicy 1 sampleWriter).b_.calls =
      [Call.prepare 8, Call.prepare 8] :=
  ⟨by decide, by decide, by decide,
   (grow_request_bounds flatPolicy 1 sampleWriter (by decide) (by decide) (by decide)).1.trans
     (by decide)⟩

/-- C8: the argument the grow procedure passes to `prepare`, computed with
wrapping `std::size_t` subtraction, under `size ≤ capacity` and
`size ≤ max_size`: neither subtraction wraps, the argument equals
`min(max(512, capacity − size), min(65536, max_size − size))` in exact
arithmetic, it is what both specializations pass to `prepare`, and it is at most
`max(512, capacity − size)`, at most 65536 and at most `max_size − size`. -/
theorem max_prepare_eq_spec_target (P : Policy) (cs : Nat) (o : ostream_buffer)
    (h1 : o.b_.size ≤ o.b_.capacity) (h2 : o.b_.size ≤ o.b_.max_size)
    (hc : o.b_.capacity < 2 ^ 64) (hm : o.b_.max_size < 2 ^ 64) :
    size_t_sub o.b_.capacity o.b_.size = o.b_.capacity - o.b_.size ∧
    size_t_sub o.b_.max_size o.b_.size = o.b_.max_size - o.b_.size ∧
    max_prepare o.b_.size o.b_.capacity o.b_.max_size =
      spec_target o.b_.size o.b_.capacity o.b_.max_size ∧
    (ostream_buffer_true.prepare P cs o).b_.calls =
      o.b_.calls ++ [Call.prepare (spec_target o.b_.size o.b_.capacity o.b_.max_size)] ∧
    (ostream_buffer_false.prepare P cs o).b_.calls =
      o.b_.calls ++ [Call.prepare (spec_target o.b_.size o.b_.capacity o.b_.max_size)] ∧
    max_prepare o.b_.size o.b_.capacity o.b_.max_size ≤ max 512 (o.b_.capacity - o.b_.size) ∧
    max_prepare o.b_.size o.b_.capacity o.b_.max_size ≤ 65536 ∧
    max_prepare o.b_.size o.b_.capacity o.b_.max_size ≤ o.b_.max_size - o.b_.size := by
  have e1 := size_t_sub_eq o.b_.capacity o.b_.size h1 hc
  have e2 := size_t_sub_eq o.b_.max_size o.b_.size h2 hm
  have e3 : max_prepare o.b_.size o.b_.capacity o.b_.max_size =
      spec_target o.b_.size o.b_.capacity o.b_.max_size := by
    unfold max_prepare spec_target; rw [e1, e2]
  refine ⟨e1, e2, e3, ?_, ?_, ?_, ?_, ?_⟩
  · rw [← e3]; rfl
  · rw [← e3]; rfl
  · rw [e3]; unfold spec_target; omega
  · rw [e3]; unfold spec_target; omega
  · rw [e3]; unfold spec_target; omega

theorem max_prepare_eq_spec_target_witness :
    sampleWriter.b_.size ≤ sampleWriter.b_.capacity ∧
    sampleWriter.b_.size ≤ sampleWriter.b_.max_size ∧
    sampleWriter.b_.capacity < 2 ^ 64 ∧ sampleWriter.b_.max_size < 2 ^ 64 ∧
    max_prepare sampleWriter.b_.size sampleWriter.b_.capacity sampleWriter.b_.max_size = 8 :=
  ⟨by decide, by decide, by decide, by decide,
   (max_prepare_eq_spec_target flatPolicy 1 sampleWriter (by decide) (by decide) (by decide)
     (by decide)).2.2.1.trans (by decide)⟩

/-- C9: construction issues exactly one prepare and no commit and leaves the
content alone; after construction and after every grow the window is empty,
starts at the first segment of the sequence that prepare call returned and has
`floor(L / sizeof(CharT)) − 1` slots, `L` being the byte length of that first
segment, whatever segments follow it, and all of it (with the reserved slot)
lies inside that segment; a second grow issues a second prepare call and sizes
the window from the first segment of that second call. -/
theorem grow_window_over_first_segment (P : Policy) (cs : Nat) (b : DynamicBuffer)
    (o : ostream_buffer) :
    (ostream_buffer_true.ctor P cs b).b_.calls =
      b.calls ++ [Call.prepare (max_prepare b.size b.capacity b.max_size)] ∧
    (ostream_buffer_true.ctor P cs b).b_.data = b.data ∧
    (ostream_buffer_true.ctor P cs b).pptr = (ostream_buffer_true.ctor P cs b).pbase ∧
    (ostream_buffer_true.ctor P cs b).epptr - (ostream_buffer_true.ctor P cs b).pbase =
      (((buffers_front (P.segments b (max_prepare b.size b.capacity b.max_size))).length / cs
        : Nat) : Int) - 1 ∧
    (ostream_buffer_true.prepare P cs o).b_.out =
      P.segments o.b_ (max_prepare o.b_.size o.b_.capacity o.b_.max_size) ∧
    (ostream_buffer_true.prepare P cs o).b_.used = 0 ∧
    (ostream_buffer_true.prepare P cs o).pbase = 0 ∧
    (ostream_buffer_true.prepare P cs o).pptr = 0 ∧
    (∀ seg rest, P.segments o.b_ (max_prepare o.b_.size o.b_.capacity o.b_.max_size) = seg :: rest →
      (ostream_buffer_true.prepare P cs o).epptr = ((seg.length / cs : Nat) : Int) - 1 ∧
      (((ostream_buffer_true.prepare P cs o).epptr + 1) * (cs : Int) ≤ (seg.length : Int))) ∧
    (ostream_buffer_true.prepare P cs (ostream_buffer_true.prepare P cs o)).b_.calls =
      o.b_.calls ++ [Call.prepare (max_prepare o.b_.size o.b_.capacity o.b_.max_size),
        Call.prepare (max_prepare o.b_.size
          (P.capacity o.b_ (max_prepare o.b_.size o.b_.capacity o.b_.max_size)) o.b_.max_size)] ∧
    (ostream_buffer_true.prepare P cs (ostream_buffer_true.prepare P cs o)).epptr =
      (((buffers_front (P.segments (ostream_buffer_true.prepare P cs o).b_
        (max_prepare o.b_.size
          (P.capacity o.b_ (max_prepare o.b_.size o.b_.capacity o.b_.max_size))
          o.b_.max_size))).length / cs : Nat) : Int) - 1 := by
  refine ⟨rfl, rfl, rfl, ?_, rfl, rfl, rfl, rfl, ?_, ?_, ?_⟩
  · simp [ostream_buffer_true.ctor, ostream_buffer_true.prepare, setp, DynamicBuffer.prepare]
  · intro seg rest hseg
    have he : (ostream_buffer_true.prepare P cs o).epptr = ((seg.length / cs : Nat) : Int) - 1 := by
      simp [ostream_buffer_true.prepare, setp, DynamicBuffer.prepare, hseg, buffers_front]
    refine ⟨he, ?_⟩
    rw [he]
    have : seg.length / cs * cs ≤ seg.length := Nat.div_mul_le_self _ _
    have h2 : ((seg.length / cs : Nat) : Int) - 1 + 1 = ((seg.length / cs : Nat) : Int) := by ring
    rw [h2]
    exact_mod_cast this
  · simp [ostream_buffer_true.prepare, setp, DynamicBuffer.prepare, DynamicBuffer.size,
      DynamicBuffer.capacity, DynamicBuffer.max_size]
  · simp [ostream_buffer_true.prepare, setp, DynamicBuffer.prepare, DynamicBuffer.size,
      DynamicBuffer.capacity, DynamicBuffer.max_size]

/-- C1: round trip. On a buffer whose every prepare hands out a first segment
holding at least one character, constructing a writer on a buffer with content
`b.data`, writing any finite sequence `u` of characters one by one and flushing
with `sync()`, or destroying the writer, leaves the committed content equal to
`b.data` followed by exactly the bytes of `u`, in order. -/
theorem round_trip (P : Policy) (cs : Nat) (hcs : 0 < cs) (hP : FirstSegmentHoldsChar P cs)
    (b : DynamicBuffer) (u : List (CharT cs)) :
    (ostream_buffer_true.sync P cs
      (ostream_buffer_true.writeAll P cs (ostream_buffer_true.ctor P cs b) u)).1.b_.data =
      b.data ++ bytesOf u ∧
    (ostream_buffer_true.dtor P cs
      (ostream_buffer_true.writeAll P cs (ostream_buffer_true.ctor P cs b) u)).data =
      b.data ++ bytesOf u := by
  have hw : WindowOver cs (ostream_buffer_true.ctor P cs b) [] :=
    prepare_windowOver P cs hcs hP _
  have h := writeAll_sync_data P cs hcs hP u (ostream_buffer_true.ctor P cs b) [] hw
  have hd : (ostream_buffer_true.ctor P cs b).b_.data = b.data := rfl
  rw [hd] at h
  have h' : (ostream_buffer_true.sync P cs
      (ostream_buffer_true.writeAll P cs (ostream_buffer_true.ctor P cs b) u)).1.b_.data =
      b.data ++ bytesOf u := by
    rw [h]; simp [bytesOf]
  exact ⟨h', h'⟩

theorem round_trip_witness :
    0 < 1 ∧ FirstSegmentHoldsChar fragPolicy 1 ∧
    (ostream_buffer_true.sync fragPolicy 1
      (ostream_buffer_true.writeAll fragPolicy 1 (ostream_buffer_true.ctor fragPolicy 1 sampleBuffer)
        [ch 1, ch 2, ch 3, ch 4, ch 5, ch 6, ch 7])).1.b_.data = [42, 1, 2, 3, 4, 5, 6, 7] :=
  ⟨by decide, fun _ _ => by simp [fragPolicy, buffers_front],
   (round_trip fragPolicy 1 (by decide) (fun _ _ => by simp [fragPolicy, buffers_front])
     sampleBuffer [ch 1, ch 2, ch 3, ch 4, ch 5, ch 6, ch 7]).1.trans (by decide)⟩

/-- C6: window-boundary exactness. From a freshly grown, empty window of
capacity `c` over a first segment `seg`, writing exactly `c` characters issues
no commit and no prepare; writing one more character then issues exactly one
commit of `(c + 1) * sizeof(CharT)` bytes followed by exactly one prepare, and
the committed content grows by exactly those `c + 1` characters, in order. -/
theorem window_boundary_exact (P : Policy) (cs : Nat) (o : ostream_buffer)
    (seg : List Byte) (rest : List (List Byte)) (c : Nat) (u : List (CharT cs)) (x : CharT cs)
    (hout : o.b_.out = seg :: rest) (hused : o.b_.used = 0)
    (hpb : o.pbase = 0) (hpp : o.pptr = 0) (hep : o.epptr = (c : Int))
    (hcap : seg.length / cs = c + 1) (hu : u.length = c) :
    (ostream_buffer_true.writeAll P cs o u).b_.calls = o.b_.calls ∧
    (ostream_buffer_true.writeAll P cs o u).b_.data = o.b_.data ∧
    (ostream_buffer_true.write P cs (ostream_buffer_true.writeAll P cs o u) x).1.b_.calls =
      o.b_.calls ++ [Call.commit ((c + 1) * cs),
        Call.prepare (max_prepare (o.b_.size + (c + 1) * cs) o.b_.capacity o.b_.max_size)] ∧
    (ostream_buffer_true.write P cs (ostream_buffer_true.writeAll P cs o u) x).1.b_.data =
      o.b_.data ++ bytesOf u ++ x.bytes ∧
    (ostream_buffer_true.write P cs (ostream_buffer_true.writeAll P cs o u) x).2 = some x := by
  have hw : WindowOver cs o [] := by
    refine ⟨seg, rest, hout, hused, hpb, by simpa using hpp, by rw [hpp, hep]; omega, ?_, ?_⟩
    · rw [hep, hcap]; push_cast; ring
    · simp [bytesOf]
  have hlen : ((([] : List (CharT cs)).length + u.length : Nat) : Int) ≤ o.epptr := by
    rw [hep, hu]; simp
  obtain ⟨hw', hd, hc, he, hcp, hms⟩ := writeAll_room P cs u o [] hw hlen
  rw [List.nil_append] at hw'
  have hfull : ¬ (ostream_buffer_true.writeAll P cs o u).pptr <
      (ostream_buffer_true.writeAll P cs o u).epptr := by
    obtain ⟨_, _, _, _, _, hpp', _⟩ := hw'
    rw [hpp', he, hep, hu]; omega
  obtain ⟨hd2, hc2⟩ := write_full_effect P cs _ u x hw' hfull
  refine ⟨hc, hd, ?_, ?_, ?_⟩
  · rw [hc2, hc, hu]
    simp only [DynamicBuffer.size, DynamicBuffer.capacity, DynamicBuffer.max_size, hd, hcp, hms]
  · rw [hd2, hd]
  · simp only [ostream_buffer_true.write, hfull, if_false, ostream_buffer_true.overflow]


theorem window_boundary_exact_witness :
    (ostream_buffer_true.ctor fragPolicy 1 sampleBuffer).b_.out =
      [7, 7, 7] :: [List.replicate 8 9] ∧
    (ostream_buffer_true.ctor fragPolicy 1 sampleBuffer).b_.used = 0 ∧
    (ostream_buffer_true.ctor fragPolicy 1 sampleBuffer).pbase = 0 ∧
    (ostream_buffer_true.ctor fragPolicy 1 sampleBuffer).pptr = 0 ∧
    (ostream_buffer_true.ctor fragPolicy 1 sampleBuffer).epptr = ((2 : Nat) : Int) ∧
    ([7, 7, 7] : List Byte).length / 1 = 2 + 1 ∧ [ch 1, ch 2].length = 2 ∧
    (ostream_buffer_true.write fragPolicy 1
      (ostream_buffer_true.writeAll fragPolicy 1
        (ostream_buffer_true.ctor fragPolicy 1 sampleBuffer) [ch 1, ch 2]) (ch 3)).1.b_.calls =
      [Call.prepare 8, Call.commit 3, Call.prepare 5] ∧
    (ostream_buffer_true.write fragPolicy 1
      (ostream_buffer_true.writeAll fragPolicy 1
        (ostream_buffer_true.ctor fragPolicy 1 sampleBuffer) [ch 1, ch 2]) (ch 3)).1.b_.data =
      [42, 1, 2, 3] :=
  ⟨by decide, by decide, by decide, by decide, by decide, by decide, by decide,
   (window_boundary_exact fragPolicy 1 (ostream_buffer_true.ctor fragPolicy 1 sampleBuffer)
     [7, 7, 7] [List.replicate 8 9] 2 [ch 1, ch 2] (ch 3) (by decide) (by decide) (by decide)
     (by decide) (by decide) (by decide) (by decide)).2.2.1.trans (by decide),
   (window_boundary_exact fragPolicy 1 (ostream_buffer_true.ctor fragPolicy 1 sampleBuffer)
     [7, 7, 7] [List.replicate 8 9] 2 [ch 1, ch 2] (ch 3) (by decide) (by decide) (by decide)
     (by decide) (by decide) (by decide) (by decide)).2.2.2.1.trans (by decide)⟩

/-- C10 (the code at the failing input): with one unflushed character `u = [1]`
in the window, the Direct front end is move-constructed, the moved-from object is
destroyed, `v = [2]` is written through the new object and it is destroyed. The
moved-from writer still holds its put area and commits the character of `u`; the
new writer, whose put area was copied, commits two characters where one is new:
four bytes are committed instead of three, and the content differs from the run
without a move. The Indirect front end gives the same content with and without
the move. -/
theorem direct_move_commits_window_twice :
    (ostream_helper_true.run_moved fragPolicy 1 sampleBuffer [ch 1] [ch 2]).calls =
      [Call.prepare 8, Call.commit 1, Call.prepare 7, Call.commit 2, Call.prepare 5] ∧
    (ostream_helper_true.run_unmoved fragPolicy 1 sampleBuffer [ch 1] [ch 2]).calls =
      [Call.prepare 8, Call.commit 2, Call.prepare 6] ∧
    (ostream_helper_true.run_moved fragPolicy 1 sampleBuffer [ch 1] [ch 2]).data.length = 4 ∧
    (ostream_helper_true.run_unmoved fragPolicy 1 sampleBuffer [ch 1] [ch 2]).data = [42, 1, 2] ∧
    (ostream_helper_true.run_moved fragPolicy 1 sampleBuffer [ch 1] [ch 2]).data ≠
      (ostream_helper_true.run_unmoved fragPolicy 1 sampleBuffer [ch 1] [ch 2]).data ∧
    (ostream_helper_false.run_moved fragPolicy 1 sampleBuffer [ch 1] [ch 2]).data = [42, 1, 2] ∧
    (ostream_helper_false.run_unmoved fragPolicy 1 sampleBuffer [ch 1] [ch 2]).data =
      [42, 1, 2] := by
  decide

/-! ## The two shapes -/

theorem step_true_eq_false (P : Policy) (cs : Nat) (o : ostream_buffer) (w : WriterOp cs) :
    ostream_buffer_true.step P cs o w = ostream_buffer_false.step P cs o w := by
  cases w <;> rfl

theorem steps_without_move (P : Policy) (cs : Nat) (b : DynamicBuffer) (fs : List (FrontOp cs))
    (hfs : ∀ f ∈ fs, f ≠ FrontOp.move) :
    ∀ o : ostream_buffer,
      (ostream_helper_false.steps P cs b { member := some o } fs).1 =
        { member := some (ostream_helper_true.steps P cs { osb_ := o } fs).1.osb_ } ∧
      (ostream_helper_false.steps P cs b { member := some o } fs).2 =
        (ostream_helper_true.steps P cs { osb_ := o } fs).2 := by
  induction fs with
  | nil => intro o; exact ⟨rfl, rfl⟩
  | cons f fs ih =>
    intro o
    have hfs' : ∀ g ∈ fs, g ≠ FrontOp.move := fun g hg => hfs g (List.mem_cons_of_mem _ hg)
    cases f with
    | move => exact absurd rfl (hfs FrontOp.move (List.mem_cons_self _ _))
    | op w =>
      obtain ⟨h1, h2⟩ := ih hfs' (ostream_buffer_true.step P cs o w).1
      simp only [ostream_helper_false.steps, ostream_helper_true.steps,
        ostream_helper_false.step, ostream_helper_true.step, ← step_true_eq_false]
      exact ⟨h1, by rw [h2]⟩

theorem shapes_agree_without_move (P : Policy) (cs : Nat) (b : DynamicBuffer)
    (fs : List (FrontOp cs)) (hfs : ∀ f ∈ fs, f ≠ FrontOp.move) :
    ostream_helper_false.run_ops P cs b fs = ostream_helper_true.run_ops P cs b fs := by
  obtain ⟨h1, h2⟩ := steps_without_move P cs b fs hfs (ostream_buffer_true.ctor P cs b)
  have hc : ostream_helper_false.ctor P cs b =
      { member := some (ostream_buffer_true.ctor P cs b) } := rfl
  have hc' : ostream_helper_true.ctor P cs b = { osb_ := ostream_buffer_true.ctor P cs b } := rfl
  simp only [ostream_helper_false.run_ops, ostream_helper_true.run_ops, hc, hc', h1, h2]
  rfl

/-! ## Commits against the outstanding bytes -/

theorem flushWithin_zero (cs : Nat) (o : ostream_buffer) (pending : List (CharT cs))
    (hw : WindowOver cs o pending) : FlushWithin cs o 0 := by
  obtain ⟨seg, rest, hout, hused, hpb, hpp, hle, hep, htake⟩ := hw
  have hk : ((o.pptr - o.pbase + 0) * (cs : Int)).toNat = pending.length * cs := by
    rw [hpp, hpb, sub_zero]; exact toNat_chars _ 0 cs
  have hfit : pending.length * cs ≤ seg.length := by
    have := congrArg List.length htake
    rw [bytesOf_length, List.length_take] at this
    omega
  unfold FlushWithin
  rw [hk]
  simp only [DynamicBuffer.outstanding, hout, hused, List.drop_zero, List.flatten_cons,
    List.length_append]
  omega

theorem flushWithin_one (cs : Nat) (o : ostream_buffer) (pending : List (CharT cs))
    (c : CharT cs) (hw : WindowOver cs o pending) : FlushWithin cs (assign cs o c) 1 := by
  obtain ⟨seg, rest, hout, hused, hpb, hpp, hle, hep, htake⟩ := hw
  have hfit : (pending.length + 1) * cs ≤ seg.length := by
    apply slot_fits; rw [← hep, ← hpp]; exact hle
  have hk : ((o.pptr - o.pbase + 1) * (cs : Int)).toNat = (pending.length + 1) * cs := by
    rw [hpp, hpb, sub_zero]; exact toNat_chars _ 1 cs
  unfold FlushWithin
  rw [assign_pptr, assign_pbase, hk]
  simp only [DynamicBuffer.outstanding, assign_used, hused, List.drop_zero,
    assign_out_cons cs o c seg rest hout, List.flatten_cons, List.length_append,
    pokeSegment_length]
  omega

theorem commitWithin_of_window (cs : Nat) (o : ostream_buffer) (pending : List (CharT cs))
    (w : WriterOp cs) (hw : WindowOver cs o pending) : CommitWithin cs o w := by
  cases w with
  | write c => exact Or.inr (flushWithin_one cs o pending c hw)
  | overflow ch =>
    cases ch with
    | none => exact flushWithin_zero cs o pending hw
    | some c => exact flushWithin_one cs o pending c hw
  | sync => exact flushWithin_zero cs o pending hw

theorem step_windowOver (P : Policy) (cs : Nat) (hcs : 0 < cs)
    (hP : FirstSegmentHoldsChar P cs) (o : ostream_buffer) (pending : List (CharT cs))
    (w : WriterOp cs) (hw : WindowOver cs o pending) (hne : w.noEof) :
    ∃ pending', WindowOver cs (ostream_buffer_true.step P cs o w).1 pending' := by
  cases w with
  | write c =>
    by_cases hroom : o.pptr < o.epptr
    · exact ⟨pending ++ [c], (write_room P cs o pending c hw hroom).1⟩
    · exact ⟨[], (write_full P cs hcs hP o pending c hw hroom).1⟩
  | overflow ch =>
    cases ch with
    | none => exact absurd hne (by simp [WriterOp.noEof])
    | some c => exact ⟨[], prepare_windowOver P cs hcs hP _⟩
  | sync => exact ⟨[], prepare_windowOver P cs hcs hP _⟩

theorem allCommitsWithin_of_window (P : Policy) (cs : Nat) (hcs : 0 < cs)
    (hP : FirstSegmentHoldsChar P cs) (ws : List (WriterOp cs)) :
    (∀ w ∈ ws, w.noEof) → ∀ (o : ostream_buffer) (pending : List (CharT cs)),
      WindowOver cs o pending → AllCommitsWithin P cs o ws := by
  induction ws with
  | nil => intro _ o pending hw; exact flushWithin_zero cs o pending hw
  | cons w ws ih =>
    intro hne o pending hw
    obtain ⟨pending', hw'⟩ :=
      step_windowOver P cs hcs hP o pending w hw (hne w (List.mem_cons_self _ _))
    exact ⟨commitWithin_of_window cs o pending w hw,
      ih (fun v hv => hne v (List.mem_cons_of_mem _ hv)) _ pending' hw'⟩

/-! ## The window bound -/

theorem windowBound_of_windowOver (cs : Nat) (o : ostream_buffer) (pending : List (CharT cs))
    (hw : WindowOver cs o pending) : ∃ seg, WindowBound cs o seg pending.length := by
  obtain ⟨seg, rest, hout, _, hpb, hpp, hle, hep, _⟩ := hw
  exact ⟨seg, ⟨rest, hout⟩, hpb, hpp, hle, hep⟩

theorem step_windowBound (P : Policy) (cs : Nat) (hcs : 0 < cs)
    (hP : FirstSegmentHoldsChar P cs) (o : ostream_buffer) (seg : List Byte) (n : Nat)
    (w : WriterOp cs) (hb : WindowBound cs o seg n) :
    ∃ seg' n', WindowBound cs (ostream_buffer_true.step P cs o w).1 seg' n' := by
  have hfresh : ∀ o' : ostream_buffer,
      ∃ seg' n', WindowBound cs (ostream_buffer_true.prepare P cs o') seg' n' := by
    intro o'
    obtain ⟨seg', h⟩ := windowBound_of_windowOver cs _ [] (prepare_windowOver P cs hcs hP o')
    exact ⟨seg', 0, h⟩
  obtain ⟨⟨rest, hout⟩, hpb, hpp, hle, hep⟩ := hb
  cases w with
  | write c =>
    by_cases hroom : o.pptr < o.epptr
    · refine ⟨pokeSegment cs seg o.pptr c, n + 1, ⟨rest, ?_⟩, ?_, ?_, ?_, ?_⟩
      · simp [ostream_buffer_true.step, ostream_buffer_true.write, hroom,
          assign_out_cons cs o c seg rest hout]
      · simp [ostream_buffer_true.step, ostream_buffer_true.write, hroom, assign_pbase, hpb]
      · have hs : (ostream_buffer_true.step P cs o (WriterOp.write c)).1.pptr = o.pptr + 1 := by
          simp only [ostream_buffer_true.step, ostream_buffer_true.write, hroom, if_true]
        rw [hs, hpp]; push_cast; rfl
      · simp only [ostream_buffer_true.step, ostream_buffer_true.write, hroom, if_true,
          assign_epptr]
        omega
      · simp only [ostream_buffer_true.step, ostream_buffer_true.write, hroom, if_true,
          assign_epptr, pokeSegment_length]
        exact hep
    · simp only [ostream_buffer_true.step, ostream_buffer_true.write, hroom, if_false,
        ostream_buffer_true.overflow]
      exact hfresh _
  | overflow ch =>
    cases ch with
    | none =>
      exact ⟨seg, n, ⟨rest, hout⟩, hpb, hpp, hle, hep⟩
    | some c => exact hfresh _
  | sync => exact hfresh _

theorem run_windowBound (P : Policy) (cs : Nat) (hcs : 0 < cs)
    (hP : FirstSegmentHoldsChar P cs) (ws : List (WriterOp cs)) :
    ∀ (o : ostream_buffer) (seg : List Byte) (n : Nat), WindowBound cs o seg n →
      ∃ seg' n', WindowBound cs (ostream_buffer_true.run P cs o ws).1 seg' n' := by
  induction ws with
  | nil => intro o seg n hb; exact ⟨seg, n, hb⟩
  | cons w ws ih =>
    intro o seg n hb
    obtain ⟨seg', n', hb'⟩ := step_windowBound P cs hcs hP o seg n w hb
    exact ih _ seg' n' hb'

/-! ## The minimal window -/

theorem commitArgs_append (xs ys : List Call) :
    commitArgs (xs ++ ys) = commitArgs xs ++ commitArgs ys := by
  induction xs with
  | nil => rfl
  | cons x xs ih => cases x <;> simp [commitArgs, ih]

theorem prepareCount_append (xs ys : List Call) :
    prepareCount (xs ++ ys) = prepareCount xs + prepareCount ys := by
  induction xs with
  | nil => simp [prepareCount]
  | cons x xs ih =>
    cases x with
    | prepare n =>
      show prepareCount (xs ++ ys) + 1 = prepareCount xs + 1 + prepareCount ys
      rw [ih]; omega
    | commit n => exact ih

theorem holdsChar_of_holdsOneChar (P : Policy) (cs : Nat) (h : FirstSegmentHoldsOneChar P cs) :
    0 < cs ∧ FirstSegmentHoldsChar P cs := by
  have hcs : 0 < cs := by
    rcases Nat.eq_zero_or_pos cs with h0 | h0
    · have := h { data := [], out := [], used := 0, cap := 0, maxSize := 0, calls := [] } 0
      rw [h0, Nat.div_zero] at this
      exact absurd this (by decide)
    · exact h0
  refine ⟨hcs, fun b n => ?_⟩
  have h1 := h b n
  by_contra hlt
  rw [Nat.div_eq_of_lt (Nat.lt_of_not_le hlt)] at h1
  exact absurd h1 (by decide)

theorem prepare_minWindow (P : Policy) (cs : Nat) (h : FirstSegmentHoldsOneChar P cs)
    (o : ostream_buffer) :
    WindowOver cs (ostream_buffer_true.prepare P cs o) [] ∧
    (ostream_buffer_true.prepare P cs o).epptr = 0 := by
  obtain ⟨hcs, hP⟩ := holdsChar_of_holdsOneChar P cs h
  refine ⟨prepare_windowOver P cs hcs hP o, ?_⟩
  have he : (ostream_buffer_true.prepare P cs o).epptr =
      (0 : Int) + (((buffers_front (P.segments o.b_
        (max_prepare o.b_.size o.b_.capacity o.b_.max_size))).length / cs : Nat) : Int) - 1 := rfl
  rw [he, h]
  simp

theorem write_minWindow (P : Policy) (cs : Nat) (h : FirstSegmentHoldsOneChar P cs)
    (o : ostream_buffer) (c : CharT cs) (hw : WindowOver cs o []) (he : o.epptr = 0) :
    ostream_buffer_true.write P cs o c = ostream_buffer_true.overflow P cs o (some c) ∧
    WindowOver cs (ostream_buffer_true.write P cs o c).1 [] ∧
    (ostream_buffer_true.write P cs o c).1.epptr = 0 ∧
    (ostream_buffer_true.write P cs o c).1.b_.data = o.b_.data ++ c.bytes ∧
    (ostream_buffer_true.write P cs o c).1.b_.calls =
      o.b_.calls ++ [Call.commit cs,
        Call.prepare (max_prepare (o.b_.size + cs) o.b_.capacity o.b_.max_size)] := by
  have hpp : o.pptr = 0 := by
    obtain ⟨_, _, _, _, _, hpp, _⟩ := hw
    simpa using hpp
  have hfull : ¬ o.pptr < o.epptr := by rw [hpp, he]; exact lt_irrefl _
  have hwo : ostream_buffer_true.write P cs o c =
      ostream_buffer_true.overflow P cs o (some c) := by
    simp only [ostream_buffer_true.write, hfull, if_false]
  obtain ⟨hd, hc⟩ := write_full_effect P cs o [] c hw hfull
  refine ⟨hwo, ?_, ?_, ?_, ?_⟩
  · rw [hwo]; exact (prepare_minWindow P cs h _).1
  · rw [hwo]; exact (prepare_minWindow P cs h _).2
  · rw [hd]; simp [bytesOf]
  · rw [hc]; simp

theorem writeAll_minWindow (P : Policy) (cs : Nat) (h : FirstSegmentHoldsOneChar P cs)
    (u : List (CharT cs)) :
    ∀ o : ostream_buffer, WindowOver cs o [] → o.epptr = 0 →
      WindowOver cs (ostream_buffer_true.writeAll P cs o u) [] ∧
      (ostream_buffer_true.writeAll P cs o u).epptr = 0 ∧
      (ostream_buffer_true.writeAll P cs o u).b_.data = o.b_.data ++ bytesOf u ∧
      commitArgs (ostream_buffer_true.writeAll P cs o u).b_.calls =
        commitArgs o.b_.calls ++ List.replicate u.length cs ∧
      prepareCount (ostream_buffer_true.writeAll P cs o u).b_.calls =
        prepareCount o.b_.calls + u.length := by
  induction u with
  | nil =>
    intro o hw he
    simp [ostream_buffer_true.writeAll, hw, he, bytesOf]
  | cons c u ih =>
    intro o hw he
    obtain ⟨_, hw', he', hd, hc⟩ := write_minWindow P cs h o c hw he
    obtain ⟨hw2, he2, hd2, hc2, hp2⟩ := ih _ hw' he'
    simp only [ostream_buffer_true.writeAll]
    refine ⟨hw2, he2, ?_, ?_, ?_⟩
    · rw [hd2, hd, bytesOf_cons, List.append_assoc]
    · rw [hc2, hc, commitArgs_append]
      simp [commitArgs, List.replicate_succ]
    · rw [hp2, hc, prepareCount_append]
      simp [prepareCount]
      omega

/-! ## The Span Writer: facts -/

theorem write_spans_written (bs : List (List Byte)) :
    ∀ os : ostream, (write_spans os bs).written = os.written ++ bs.flatten := by
  induction bs with
  | nil => intro os; simp [write_spans]
  | cons b bs ih =>
    intro os
    simp only [write_spans, ih, ostream.write, List.flatten_cons, List.append_assoc]

theorem write_spans_addr (bs : List (List Byte)) :
    ∀ os : ostream, (write_spans os bs).addr = os.addr := by
  induction bs with
  | nil => intro os; rfl
  | cons b bs ih => intro os; simp only [write_spans, ih, ostream.write]

/-! ## The claims, continued -/

/-- C14: Span Writer. For every buffer sequence (spans may be empty) and every
sink, `operator<<` appends to the sink exactly the concatenation of the spans'
bytes in sequence order, advances the write position by the sum of the span
lengths, and returns the same sink. -/
theorem span_writer_appends_all_spans (os : ostream) (v : buffers_helper) :
    (operator_shl os v).written = os.written ++ v.b_.flatten ∧
    (operator_shl os v).tellp = os.tellp + (v.b_.map List.length).sum ∧
    (operator_shl os v).addr = os.addr := by
  refine ⟨write_spans_written v.b_ os, ?_, write_spans_addr v.b_ os⟩
  simp only [ostream.tellp, operator_shl, write_spans_written, List.length_append,
    List.length_flatten]

/-- C15: the Span Writer is not idempotent. Writing the same view twice appends
the concatenated bytes `s` of the spans twice, and the result equals that of
writing once exactly when `s` is empty. -/
theorem span_writer_twice_appends_twice (os : ostream) (v : buffers_helper) :
    (operator_shl (operator_shl os v) v).written = os.written ++ v.b_.flatten ++ v.b_.flatten ∧
    ((operator_shl (operator_shl os v) v).written = (operator_shl os v).written ↔
      v.b_.flatten = []) := by
  have h1 : (operator_shl os v).written = os.written ++ v.b_.flatten :=
    write_spans_written v.b_ os
  have h2 : (operator_shl (operator_shl os v) v).written =
      os.written ++ v.b_.flatten ++ v.b_.flatten := by
    rw [← h1]; exact write_spans_written v.b_ _
  refine ⟨h2, ?_⟩
  rw [h2, h1]
  constructor
  · intro h
    have := congrArg List.length h
    simp only [List.length_append] at this
    exact List.length_eq_zero.mp (by omega)
  · intro h; rw [h, List.append_nil]

/-- C17: `overflow(eof)` on a writer holding `n` characters leaves `pbase`,
`pptr` and `epptr` as they were, so the window still reports `n` characters;
followed at once by `sync()`, or by destruction, the calls issued are two commits
of `n * sizeof(CharT)` bytes each and then one prepare, with no prepare between
the two commits. -/
theorem overflow_eof_keeps_window (P : Policy) (cs : Nat) (o : ostream_buffer) (n : Nat)
    (hn : o.pptr - o.pbase = (n : Int)) :
    (ostream_buffer_true.overflow P cs o none).1.pbase = o.pbase ∧
    (ostream_buffer_true.overflow P cs o none).1.pptr = o.pptr ∧
    (ostream_buffer_true.overflow P cs o none).1.epptr = o.epptr ∧
    (ostream_buffer_true.overflow P cs o none).1.pptr -
      (ostream_buffer_true.overflow P cs o none).1.pbase = (n : Int) ∧
    (ostream_buffer_true.sync P cs (ostream_buffer_true.overflow P cs o none).1).1.b_.calls =
      o.b_.calls ++ [Call.commit (n * cs), Call.commit (n * cs),
        Call.prepare (max_prepare ((o.b_.commit (n * cs)).commit (n * cs)).size
          o.b_.capacity o.b_.max_size)] ∧
    (ostream_buffer_true.dtor P cs (ostream_buffer_true.overflow P cs o none).1).calls =
      o.b_.calls ++ [Call.commit (n * cs), Call.commit (n * cs),
        Call.prepare (max_prepare ((o.b_.commit (n * cs)).commit (n * cs)).size
          o.b_.capacity o.b_.max_size)] := by
  have hk : ((o.pptr - o.pbase + 0) * (cs : Int)).toNat = n * cs := by
    rw [hn]; exact toNat_chars n 0 cs
  have hs : (ostream_buffer_true.sync P cs
      (ostream_buffer_true.overflow P cs o none).1).1.b_.calls =
      o.b_.calls ++ [Call.commit (n * cs), Call.commit (n * cs),
        Call.prepare (max_prepare ((o.b_.commit (n * cs)).commit (n * cs)).size
          o.b_.capacity o.b_.max_size)] := by
    simp only [ostream_buffer_true.sync, ostream_buffer_true.overflow,
      ostream_buffer_true.prepare, ostream_buffer_true.flush, setp, DynamicBuffer.prepare,
      DynamicBuffer.commit, DynamicBuffer.size, DynamicBuffer.capacity,
      DynamicBuffer.max_size, hk, List.append_assoc, List.singleton_append, List.cons_append,
      List.nil_append]
  exact ⟨rfl, rfl, rfl, hn, hs, hs⟩

theorem overflow_eof_keeps_window_witness :
    sampleWriter.pptr - sampleWriter.pbase = ((2 : Nat) : Int) ∧
    (ostream_buffer_true.sync flatPolicy 1
      (ostream_buffer_true.overflow flatPolicy 1 sampleWriter none).1).1.b_.calls =
      [Call.prepare 8, Call.commit 2, Call.commit 2, Call.prepare 4] :=
  ⟨by decide,
   (overflow_eof_keeps_window flatPolicy 1 sampleWriter 2 (by decide)).2.2.2.2.1.trans
     (by decide)⟩

/-- C18: for every buffer state with `size ≤ capacity ≤ max_size`, the argument
the grow procedure passes to `prepare` is 0 exactly when `size = max_size`, and
is at least 512 exactly when `max_size − size` is at least 512. -/
theorem max_prepare_zero_iff_full (P : Policy) (cs : Nat) (o : ostream_buffer)
    (h1 : o.b_.size ≤ o.b_.capacity) (h2 : o.b_.capacity ≤ o.b_.max_size)
    (h3 : o.b_.max_size < 2 ^ 64) :
    (ostream_buffer_true.prepare P cs o).b_.calls =
      o.b_.calls ++ [Call.prepare (max_prepare o.b_.size o.b_.capacity o.b_.max_size)] ∧
    (max_prepare o.b_.size o.b_.capacity o.b_.max_size = 0 ↔ o.b_.size = o.b_.max_size) ∧
    (512 ≤ max_prepare o.b_.size o.b_.capacity o.b_.max_size ↔
      512 ≤ o.b_.max_size - o.b_.size) := by
  have e1 := size_t_sub_eq o.b_.capacity o.b_.size h1 (lt_of_le_of_lt h2 h3)
  have e2 := size_t_sub_eq o.b_.max_size o.b_.size (le_trans h1 h2) h3
  refine ⟨rfl, ?_, ?_⟩
  · unfold max_prepare; rw [e1, e2]; omega
  · unfold max_prepare; rw [e1, e2]; omega

theorem max_prepare_zero_iff_full_witness :
    fullBuffer.size ≤ fullBuffer.capacity ∧ fullBuffer.capacity ≤ fullBuffer.max_size ∧
    fullBuffer.max_size < 2 ^ 64 ∧
    max_prepare fullBuffer.size fullBuffer.capacity fullBuffer.max_size = 0 :=
  ⟨by decide, by decide, by decide,
   (max_prepare_zero_iff_full flatPolicy 1 { b_ := fullBuffer, pbase := 0, pptr := 0, epptr := 0 }
     (by decide) (by decide) (by decide)).2.1.mpr (by decide)⟩

/-- C12 (as stated, refuted): on a buffer that has reached its maximum size the
grow procedure requests `prepare(0)`, the first segment holds no character slot
(`floor(L / sizeof(CharT)) = 0`), and construction completes and installs a window
whose end lies one slot before its base (length −1). -/
theorem degenerate_segment_installs_window :
    (buffers_front (flatPolicy.segments fullBuffer 0)).length / 1 = 0 ∧
    (ostream_buffer_true.ctor flatPolicy 1 fullBuffer).b_.calls = [Call.prepare 0] ∧
    (ostream_buffer_true.ctor flatPolicy 1 fullBuffer).b_.out = [[]] ∧
    (ostream_buffer_true.ctor flatPolicy 1 fullBuffer).epptr -
      (ostream_buffer_true.ctor flatPolicy 1 fullBuffer).pbase = -1 := by
  decide

/-- C12 (amended): the grow procedure has no failure path. Whenever the first
segment returned by prepare holds no character slot
(`floor(L / sizeof(CharT)) = 0`), grow and construction complete: the prepare
call is issued, the output sequence is the one returned, and the window
installed is empty with its end one slot before its base (length −1). -/
theorem grow_on_degenerate_segment (P : Policy) (cs : Nat) (o : ostream_buffer)
    (hdeg : (buffers_front (P.segments o.b_
      (max_prepare o.b_.size o.b_.capacity o.b_.max_size))).length / cs = 0) :
    (ostream_buffer_true.prepare P cs o).b_.calls =
      o.b_.calls ++ [Call.prepare (max_prepare o.b_.size o.b_.capacity o.b_.max_size)] ∧
    (ostream_buffer_true.prepare P cs o).b_.out =
      P.segments o.b_ (max_prepare o.b_.size o.b_.capacity o.b_.max_size) ∧
    (ostream_buffer_true.prepare P cs o).pptr = (ostream_buffer_true.prepare P cs o).pbase ∧
    (ostream_buffer_true.prepare P cs o).epptr - (ostream_buffer_true.prepare P cs o).pbase =
      -1 ∧
    (ostream_buffer_true.ctor P cs o.b_).pptr = (ostream_buffer_true.ctor P cs o.b_).pbase ∧
    (ostream_buffer_true.ctor P cs o.b_).epptr - (ostream_buffer_true.ctor P cs o.b_).pbase =
      -1 := by
  refine ⟨rfl, rfl, rfl, ?_, rfl, ?_⟩
  · simp only [ostream_buffer_true.prepare, setp, DynamicBuffer.prepare, hdeg]
    simp
  · simp only [ostream_buffer_true.ctor, ostream_buffer_true.prepare, setp,
      DynamicBuffer.prepare]
    have hd : (buffers_front (P.segments o.b_
        (max_prepare (DynamicBuffer.size o.b_) (DynamicBuffer.capacity o.b_)
          (DynamicBuffer.max_size o.b_)))).length / cs = 0 := hdeg
    rw [hd]
    simp

theorem grow_on_degenerate_segment_witness :
    (buffers_front (flatPolicy.segments fullBuffer
      (max_prepare fullBuffer.size fullBuffer.capacity fullBuffer.max_size))).length / 1 = 0 ∧
    (ostream_buffer_true.prepare flatPolicy 1
      { b_ := fullBuffer, pbase := 0, pptr := 0, epptr := 0 }).epptr -
    (ostream_buffer_true.prepare flatPolicy 1
      { b_ := fullBuffer, pbase := 0, pptr := 0, epptr := 0 }).pbase = -1 :=
  ⟨by decide,
   (grow_on_degenerate_segment flatPolicy 1
     { b_ := fullBuffer, pbase := 0, pptr := 0, epptr := 0 } (by decide)).2.2.2.1⟩

/-- C11 (the code at the failing input): the operations write `1`, move-construct,
write `2`, destroy. The Direct front end issues
`prepare, commit 1, prepare, commit 2, prepare` and commits four bytes; the
Indirect front end issues `prepare, commit 2, prepare` and commits `1, 2` after
the initial content: the two shapes differ in their calls and in the content
they leave, while the values returned are the same. -/
theorem shapes_differ_after_move :
    (ostream_helper_true.run_ops fragPolicy 1 sampleBuffer
      [FrontOp.op (WriterOp.write (ch 1)), FrontOp.move,
        FrontOp.op (WriterOp.write (ch 2))]).1.calls =
      [Call.prepare 8, Call.commit 1, Call.prepare 7, Call.commit 2, Call.prepare 5] ∧
    (ostream_helper_false.run_ops fragPolicy 1 sampleBuffer
      [FrontOp.op (WriterOp.write (ch 1)), FrontOp.move,
        FrontOp.op (WriterOp.write (ch 2))]).1.calls =
      [Call.prepare 8, Call.commit 2, Call.prepare 6] ∧
    (ostream_helper_true.run_ops fragPolicy 1 sampleBuffer
      [FrontOp.op (WriterOp.write (ch 1)), FrontOp.move,
        FrontOp.op (WriterOp.write (ch 2))]).1.data.length = 4 ∧
    (ostream_helper_false.run_ops fragPolicy 1 sampleBuffer
      [FrontOp.op (WriterOp.write (ch 1)), FrontOp.move,
        FrontOp.op (WriterOp.write (ch 2))]).1.data = [42, 1, 2] ∧
    (ostream_helper_true.run_ops fragPolicy 1 sampleBuffer
      [FrontOp.op (WriterOp.write (ch 1)), FrontOp.move,
        FrontOp.op (WriterOp.write (ch 2))]).2 =
    (ostream_helper_false.run_ops fragPolicy 1 sampleBuffer
      [FrontOp.op (WriterOp.write (ch 1)), FrontOp.move,
        FrontOp.op (WriterOp.write (ch 2))]).2 := by
  decide

/-- C13 (as stated, refuted): five characters are written into a window over an
8-byte segment, then `overflow(eof)` and `sync()` are called. The calls are
`prepare 8, commit 5, commit 5, prepare 0`: when `sync()` commits 5 bytes only 3
are outstanding from the one prepare, and the two commits together exceed the 8
bytes it returned. -/
theorem commit_exceeds_outstanding :
    ¬ AllCommitsWithin flatPolicy 1 (ostream_buffer_true.ctor flatPolicy 1 sampleBuffer)
      [WriterOp.write (ch 1), WriterOp.write (ch 2), WriterOp.write (ch 3),
        WriterOp.write (ch 4), WriterOp.write (ch 5), WriterOp.overflow none, WriterOp.sync] ∧
    (ostream_buffer_true.run flatPolicy 1 (ostream_buffer_true.ctor flatPolicy 1 sampleBuffer)
      [WriterOp.write (ch 1), WriterOp.write (ch 2), WriterOp.write (ch 3),
        WriterOp.write (ch 4), WriterOp.write (ch 5), WriterOp.overflow none,
        WriterOp.sync]).1.b_.calls =
      [Call.prepare 8, Call.commit 5, Call.commit 5, Call.prepare 0] ∧
    (ostream_buffer_true.run flatPolicy 1 (ostream_buffer_true.ctor flatPolicy 1 sampleBuffer)
      [WriterOp.write (ch 1), WriterOp.write (ch 2), WriterOp.write (ch 3),
        WriterOp.write (ch 4), WriterOp.write (ch 5),
        WriterOp.overflow none]).1.b_.outstanding.length = 3 := by
  decide

/-- C13 (amended): on a buffer whose every prepare returns a first segment
holding at least one character, for every sequence of `write`, `overflow` with a
character and `sync` after construction, and for the final destruction, every
commit the writer issues is at most the number of bytes outstanding from the most
recent prepare when it is issued. -/
theorem commits_within_outstanding (P : Policy) (cs : Nat) (hcs : 0 < cs)
    (hP : FirstSegmentHoldsChar P cs) (b : DynamicBuffer) (ws : List (WriterOp cs))
    (hne : ∀ w ∈ ws, w.noEof) :
    AllCommitsWithin P cs (ostream_buffer_true.ctor P cs b) ws :=
  allCommitsWithin_of_window P cs hcs hP ws hne _ [] (prepare_windowOver P cs hcs hP _)

theorem commits_within_outstanding_witness :
    0 < 1 ∧ FirstSegmentHoldsChar fragPolicy 1 ∧
    (∀ w ∈ [WriterOp.write (ch 1), WriterOp.overflow (some (ch 2)), WriterOp.sync,
      WriterOp.write (ch 3)], w.noEof) ∧
    AllCommitsWithin fragPolicy 1 (ostream_buffer_true.ctor fragPolicy 1 sampleBuffer)
      [WriterOp.write (ch 1), WriterOp.overflow (some (ch 2)), WriterOp.sync,
        WriterOp.write (ch 3)] :=
  ⟨by decide, fun _ _ => by simp [fragPolicy, buffers_front],
   by simp [WriterOp.noEof],
   commits_within_outstanding fragPolicy 1 (by decide)
     (fun _ _ => by simp [fragPolicy, buffers_front]) sampleBuffer _
     (by simp [WriterOp.noEof])⟩

/-- C16: window invariant. On a buffer whose every prepare returns a first
segment holding at least one character, in every state reached from construction
by `write`, `overflow` (with a character or with the sentinel) and `sync`, the
window lies over the first segment of the output sequence, of byte length `L`,
and the number `n` of characters in it satisfies
`0 ≤ n ≤ capacity = floor(L / sizeof(CharT)) − 1`; the commit amounts
`flush` computes for `extra = 0` and `extra = 1` are `n * sizeof(CharT)` and
`(n + 1) * sizeof(CharT)`, multiples of `sizeof(CharT)` that are at most `L`. -/
theorem window_invariant (P : Policy) (cs : Nat) (hcs : 0 < cs)
    (hP : FirstSegmentHoldsChar P cs) (b : DynamicBuffer) (ws : List (WriterOp cs)) :
    ∃ (seg : List Byte) (rest : List (List Byte)) (n : Nat),
      (ostream_buffer_true.run P cs (ostream_buffer_true.ctor P cs b) ws).1.b_.out =
        seg :: rest ∧
      (ostream_buffer_true.run P cs (ostream_buffer_true.ctor P cs b) ws).1.pptr -
        (ostream_buffer_true.run P cs (ostream_buffer_true.ctor P cs b) ws).1.pbase = (n : Int) ∧
      (ostream_buffer_true.run P cs (ostream_buffer_true.ctor P cs b) ws).1.epptr -
        (ostream_buffer_true.run P cs (ostream_buffer_true.ctor P cs b) ws).1.pbase =
        ((seg.length / cs : Nat) : Int) - 1 ∧
      (n : Int) ≤ ((seg.length / cs : Nat) : Int) - 1 ∧
      (((ostream_buffer_true.run P cs (ostream_buffer_true.ctor P cs b) ws).1.pptr -
        (ostream_buffer_true.run P cs (ostream_buffer_true.ctor P cs b) ws).1.pbase + 0) *
          (cs : Int)).toNat = n * cs ∧
      (((ostream_buffer_true.run P cs (ostream_buffer_true.ctor P cs b) ws).1.pptr -
        (ostream_buffer_true.run P cs (ostream_buffer_true.ctor P cs b) ws).1.pbase + 1) *
          (cs : Int)).toNat = (n + 1) * cs ∧
      cs ∣ n * cs ∧ cs ∣ (n + 1) * cs ∧
      n * cs ≤ seg.length ∧ (n + 1) * cs ≤ seg.length := by
  obtain ⟨seg0, h0⟩ :=
    windowBound_of_windowOver cs _ [] (prepare_windowOver P cs hcs hP
      { b_ := b, pbase := 0, pptr := 0, epptr := 0 })
  obtain ⟨seg, n, ⟨rest, hout⟩, hpb, hpp, hle, hep⟩ :=
    run_windowBound P cs hcs hP ws (ostream_buffer_true.ctor P cs b) seg0 _ h0
  have hfit : (n + 1) * cs ≤ seg.length := by
    apply slot_fits; rw [← hep, ← hpp]; exact hle
  have hfit0 : n * cs ≤ seg.length := by nlinarith
  refine ⟨seg, rest, n, hout, ?_, ?_, ?_, ?_, ?_, Dvd.intro_left n rfl,
    Dvd.intro_left (n + 1) rfl, hfit0, hfit⟩
  · rw [hpp, hpb, sub_zero]
  · rw [hep, hpb, sub_zero]
  · rw [← hep, ← hpp]; exact hle
  · rw [hpp, hpb, sub_zero]; exact toNat_chars n 0 cs
  · rw [hpp, hpb, sub_zero]; exact toNat_chars n 1 cs

theorem window_invariant_witness :
    0 < 1 ∧ FirstSegmentHoldsChar fragPolicy 1 ∧
    ∃ (seg : List Byte) (rest : List (List Byte)) (n : Nat),
      (ostream_buffer_true.run fragPolicy 1 (ostream_buffer_true.ctor fragPolicy 1 sampleBuffer)
        [WriterOp.write (ch 1), WriterOp.overflow none, WriterOp.write (ch 2)]).1.b_.out =
        seg :: rest ∧ (n + 1) * 1 ≤ seg.length :=
  ⟨by decide, fun _ _ => by simp [fragPolicy, buffers_front],
   (window_invariant fragPolicy 1 (by decide)
     (fun _ _ => by simp [fragPolicy, buffers_front]) sampleBuffer
     [WriterOp.write (ch 1), WriterOp.overflow none, WriterOp.write (ch 2)]).elim
     (fun seg h => h.elim (fun rest h => h.elim (fun n h =>
       ⟨seg, rest, n, h.1, h.2.2.2.2.2.2.2.2.2⟩)))⟩

/-- C19: progress with a minimal window. When the first segment of every prepare
holds exactly one character, the window installed by construction has zero usable
slots; every `write` of a character is exactly one `overflow` call, which commits
exactly `sizeof(CharT)` bytes (one character) and issues exactly one prepare; and
writing `k` characters ends with those `k` characters committed in order after
`k` commits of one character each and `k` prepares on top of the constructor's. -/
theorem minimal_window_progress (P : Policy) (cs : Nat) (hP1 : FirstSegmentHoldsOneChar P cs)
    (b : DynamicBuffer) (u v : List (CharT cs)) (c : CharT cs) :
    (ostream_buffer_true.ctor P cs b).epptr - (ostream_buffer_true.ctor P cs b).pbase = 0 ∧
    ostream_buffer_true.write P cs
        (ostream_buffer_true.writeAll P cs (ostream_buffer_true.ctor P cs b) v) c =
      ostream_buffer_true.overflow P cs
        (ostream_buffer_true.writeAll P cs (ostream_buffer_true.ctor P cs b) v) (some c) ∧
    (ostream_buffer_true.write P cs
        (ostream_buffer_true.writeAll P cs (ostream_buffer_true.ctor P cs b) v) c).1.b_.calls =
      (ostream_buffer_true.writeAll P cs (ostream_buffer_true.ctor P cs b) v).b_.calls ++
        [Call.commit cs,
          Call.prepare (max_prepare
            ((ostream_buffer_true.writeAll P cs (ostream_buffer_true.ctor P cs b) v).b_.size + cs)
            (ostream_buffer_true.writeAll P cs (ostream_buffer_true.ctor P cs b) v).b_.capacity
            (ostream_buffer_true.writeAll P cs
              (ostream_buffer_true.ctor P cs b) v).b_.max_size)] ∧
    (ostream_buffer_true.writeAll P cs (ostream_buffer_true.ctor P cs b) u).b_.data =
      b.data ++ bytesOf u ∧
    commitArgs (ostream_buffer_true.writeAll P cs (ostream_buffer_true.ctor P cs b) u).b_.calls =
      commitArgs b.calls ++ List.replicate u.length cs ∧
    prepareCount (ostream_buffer_true.writeAll P cs (ostream_buffer_true.ctor P cs b) u).b_.calls =
      prepareCount b.calls + 1 + u.length := by
  have hm := prepare_minWindow P cs hP1 { b_ := b, pbase := 0, pptr := 0, epptr := 0 }
  have hw0 : WindowOver cs (ostream_buffer_true.ctor P cs b) [] := hm.1
  have he0 : (ostream_buffer_true.ctor P cs b).epptr = 0 := hm.2
  have hc0 : (ostream_buffer_true.ctor P cs b).b_.calls =
      b.calls ++ [Call.prepare (max_prepare b.size b.capacity b.max_size)] := rfl
  have hd0 : (ostream_buffer_true.ctor P cs b).b_.data = b.data := rfl
  obtain ⟨hwv, hev, _, _, _⟩ := writeAll_minWindow P cs hP1 v _ hw0 he0
  obtain ⟨hwo, _, _, _, hcv⟩ := write_minWindow P cs hP1 _ c hwv hev
  obtain ⟨_, _, hdu, hcu, hpu⟩ := writeAll_minWindow P cs hP1 u _ hw0 he0
  refine ⟨?_, hwo, hcv, ?_, ?_, ?_⟩
  · have hpb : (ostream_buffer_true.ctor P cs b).pbase = 0 := rfl
    rw [hpb, sub_zero]; exact he0
  · rw [hdu, hd0]
  · rw [hcu, hc0, commitArgs_append]; simp [commitArgs]
  · rw [hpu, hc0, prepareCount_append]; simp [prepareCount]

theorem minimal_window_progress_witness :
    FirstSegmentHoldsOneChar bytePolicy 1 ∧
    (ostream_buffer_true.writeAll bytePolicy 1 (ostream_buffer_true.ctor bytePolicy 1 sampleBuffer)
      [ch 1, ch 2, ch 3]).b_.data = [42, 1, 2, 3] ∧
    (ostream_buffer_true.writeAll bytePolicy 1 (ostream_buffer_true.ctor bytePolicy 1 sampleBuffer)
      [ch 1, ch 2, ch 3]).b_.calls =
      [Call.prepare 8, Call.commit 1, Call.prepare 7, Call.commit 1, Call.prepare 6,
        Call.commit 1, Call.prepare 5] :=
  ⟨fun _ _ => by simp [bytePolicy, buffers_front],
   (minimal_window_progress bytePolicy 1 (fun _ _ => by simp [bytePolicy, buffers_front])
     sampleBuffer [ch 1, ch 2, ch 3] [] (ch 1)).2.2.2.1.trans (by decide),
   by decide⟩

end Beast
